import Mathlib

/-!
# Service registry: data model, record encoding and registry operations

Shallow embedding of `internal/models/service.go` and
`internal/discovery/client.go`.

* A Go string is the list of its bytes (`GoString`); string literals of the
  source are the UTF-8 bytes of their text (`utf8`). Go `int` is `Int` together
  with the range predicate `IsGoInt`; Go `error` values are their messages.
* A Go `map[string]V` is the list of its entries in increasing key order
  (`GoMap`); a map-typed struct field is `Option (GoMap V)`, `none` being the
  nil map.
* `encoding/json` is modelled at the level of JSON documents (`JSON`), whose
  strings are Unicode text: a byte slice is the document it spells, or `none`
  when it is not JSON text. Writing a Go string into a document decodes its
  bytes as UTF-8 and turns every byte outside a UTF-8 sequence into U+FFFD
  (`toText`); reading it back encodes the text as UTF-8.
* `time.Time` is its wall-clock reading with the zone offset in seconds and
  the monotonic clock reading, written and read as RFC 3339 text like
  `Time.MarshalJSON` and `Time.UnmarshalJSON` do. The location pointer is not
  represented.
* The key-value store the registry talks to is the state `Etcd`; whether a
  call reaches it is decided by the `Context` of the operation.
-/

namespace Registry

/-! ## Go values -/

/-- A Go string: its bytes. -/
abbrev GoString := List Nat

/-- Go `error` values, identified with their message. -/
abbrev Error := GoString

deriving instance DecidableEq for Except

/-- Range of the Go type `int` (64 bit). -/
def IsGoInt (n : Int) : Prop := -(2 : Int) ^ 63 ≤ n ∧ n < (2 : Int) ^ 63

instance (n : Int) : Decidable (IsGoInt n) := by unfold IsGoInt; infer_instance

/-- Entries of a Go `map[string]V`, kept in increasing key order (the order of
the key bytes). -/
abbrev GoMap (V : Type) := List (GoString × V)

namespace GoMap

/-- Map read `m[k]` in its two-result form. -/
def get {V : Type} : GoMap V → GoString → Option V
  | [], _ => none
  | (k', v) :: rest, k => if k = k' then some v else get rest k

/-- Map write `m[k] = v`. -/
def set {V : Type} : GoMap V → GoString → V → GoMap V
  | [], k, v => [(k, v)]
  | (k', v') :: rest, k, v =>
    if k < k' then (k, v) :: (k', v') :: rest
    else if k = k' then (k, v) :: rest
    else (k', v') :: set rest k v

/-- Builtin `delete(m, k)`. -/
def delete {V : Type} : GoMap V → GoString → GoMap V
  | [], _ => []
  | (k', v') :: rest, k => if k = k' then delete rest k else (k', v') :: delete rest k

/-- Keys are listed in strictly increasing order. -/
def Ordered {V : Type} (m : GoMap V) : Prop := (m.map Prod.fst).Pairwise (fun a b => a < b)

instance {V : Type} (m : GoMap V) : Decidable (Ordered m) := by unfold Ordered; infer_instance

end GoMap

/-! ## UTF-8 (unicode/utf8) -/

/-- The UTF-8 bytes of a code point. -/
def encodeRune (v : Nat) : List Nat :=
  if v < 0x80 then [v]
  else if v < 0x800 then [0xC0 + v / 64, 0x80 + v % 64]
  else if v < 0x10000 then [0xE0 + v / 4096, 0x80 + v / 64 % 64, 0x80 + v % 64]
  else [0xF0 + v / 262144, 0x80 + v / 4096 % 64, 0x80 + v / 64 % 64, 0x80 + v % 64]

/-- The UTF-8 bytes of a sequence of characters. -/
def encodeRunes : List Char → GoString
  | [] => []
  | c :: cs => encodeRune c.toNat ++ encodeRunes cs

/-- The Go string that holds a text: its UTF-8 encoding. -/
def utf8 (s : String) : GoString := encodeRunes s.data

/-- A continuation byte. -/
def isCont (b : Nat) : Bool := decide (0x80 ≤ b ∧ b ≤ 0xBF)

/-- Least second byte accepted after the first byte `b0`. -/
def secondLow (b0 : Nat) : Nat := if b0 = 0xE0 then 0xA0 else if b0 = 0xF0 then 0x90 else 0x80

/-- Greatest second byte accepted after the first byte `b0`. -/
def secondHigh (b0 : Nat) : Nat := if b0 = 0xED then 0x9F else if b0 = 0xF4 then 0x8F else 0xBF

/-- A two-byte sequence after its first byte. -/
def decodeTwo (b0 : Nat) : List Nat → Option (Nat × List Nat)
  | b1 :: r1 => if isCont b1 then some ((b0 - 0xC0) * 64 + (b1 - 0x80), r1) else none
  | _ => none

/-- A three-byte sequence after its first byte. -/
def decodeThree (b0 : Nat) : List Nat → Option (Nat × List Nat)
  | b1 :: b2 :: r2 =>
    if secondLow b0 ≤ b1 ∧ b1 ≤ secondHigh b0 ∧ isCont b2 then
      some ((b0 - 0xE0) * 4096 + (b1 - 0x80) * 64 + (b2 - 0x80), r2)
    else none
  | _ => none

/-- A four-byte sequence after its first byte. -/
def decodeFour (b0 : Nat) : List Nat → Option (Nat × List Nat)
  | b1 :: b2 :: b3 :: r3 =>
    if secondLow b0 ≤ b1 ∧ b1 ≤ secondHigh b0 ∧ isCont b2 ∧ isCont b3 then
      some ((b0 - 0xF0) * 262144 + (b1 - 0x80) * 4096 + (b2 - 0x80) * 64 + (b3 - 0x80), r3)
    else none
  | _ => none

/-- Function `utf8.DecodeRune`: the code point at the head of the bytes and the
bytes after it, or `none` where the function reports `RuneError` with width 1
(overlong forms, surrogates and values above U+10FFFF included). -/
def decodeRune : List Nat → Option (Nat × List Nat)
  | [] => none
  | b0 :: rest =>
    if b0 < 0x80 then some (b0, rest)
    else if 0xC2 ≤ b0 ∧ b0 ≤ 0xDF then decodeTwo b0 rest
    else if 0xE0 ≤ b0 ∧ b0 ≤ 0xEF then decodeThree b0 rest
    else if 0xF0 ≤ b0 ∧ b0 ≤ 0xF4 then decodeFour b0 rest
    else none

/-- The characters `encoding/json` writes for the bytes of a Go string: the
decoded code points, with U+FFFD for each byte that starts no valid sequence.
Every step consumes a byte, so fuel equal to the number of bytes suffices. -/
def decodeText : Nat → List Nat → List Char
  | 0, _ => []
  | _ + 1, [] => []
  | fuel + 1, b :: rest =>
    match decodeRune (b :: rest) with
    | some (v, r) => Char.ofNat v :: decodeText fuel r
    | none => Char.ofNat 0xFFFD :: decodeText fuel rest

/-- The text `encoding/json` writes for a Go string. -/
def toText (g : GoString) : String := String.mk (decodeText g.length g)

/-- The Go string is valid UTF-8: it is the encoding of a text. -/
def ValidUTF8 (g : GoString) : Prop := ∃ s : String, utf8 s = g

/-- What is left of a Go string after `json.Marshal` and `json.Unmarshal`:
every byte outside a UTF-8 sequence has become the three bytes of U+FFFD. -/
def wireString (g : GoString) : GoString := utf8 (toText g)

/-! ## Decimal text -/

/-- Character of a decimal digit. -/
def digitChar (d : Nat) : Char := Char.ofNat (48 + d % 10)

/-- Value of a decimal digit character. -/
def digitVal (c : Char) : Option Nat :=
  if 48 ≤ c.toNat ∧ c.toNat ≤ 57 then some (c.toNat - 48) else none

/-- Fixed-width decimal rendering, most significant digit first. -/
def padNat : Nat → Nat → List Char
  | 0, _ => []
  | w + 1, n => digitChar (n / 10 ^ w) :: padNat w (n % 10 ^ w)

/-- Reads exactly `w` decimal digits. -/
def readNat : Nat → List Char → Option (Nat × List Char)
  | 0, cs => some (0, cs)
  | _ + 1, [] => none
  | w + 1, c :: cs =>
    match digitVal c with
    | none => none
    | some d =>
      match readNat w cs with
      | none => none
      | some (n, rest) => some (d * 10 ^ w + n, rest)

/-- Consumes one given character. -/
def expect (c : Char) : List Char → Option (List Char)
  | [] => none
  | c' :: cs => if c' = c then some cs else none

/-- Digits of a fraction of width `w`, trailing zeros dropped. -/
def fracDigits : Nat → Nat → List Char
  | 0, _ => []
  | w + 1, n => if n = 0 then [] else digitChar (n / 10 ^ w) :: fracDigits w (n % 10 ^ w)

/-- Longest run of leading digits, with the remaining text. -/
def spanDigits : List Char → List Nat × List Char
  | [] => ([], [])
  | c :: cs =>
    match digitVal c with
    | none => ([], c :: cs)
    | some d => (d :: (spanDigits cs).1, (spanDigits cs).2)

/-- Value of a digit run read as a fraction of width `w`; digits beyond the
width are dropped. -/
def fracVal : Nat → List Nat → Nat
  | 0, _ => 0
  | _ + 1, [] => 0
  | w + 1, d :: ds => d * 10 ^ w + fracVal w ds

/-! ## time.Time -/

/-- A `time.Time`: the wall-clock reading (civil date, time of day with
nanoseconds), the zone offset in seconds east of UTC, and the monotonic clock
reading that values of `time.Now()` carry. -/
structure Time where
  year : Int
  month : Nat
  day : Nat
  hour : Nat
  minute : Nat
  second : Nat
  nano : Nat
  offset : Int
  mono : Option Int
deriving DecidableEq

/-- Leap year of the Gregorian calendar. -/
def isLeap (y : Nat) : Bool := y % 4 = 0 && (y % 100 != 0 || y % 400 = 0)

/-- Number of days of a month. -/
def daysIn (m y : Nat) : Nat :=
  if m = 2 then (if isLeap y then 29 else 28)
  else if m = 4 ∨ m = 6 ∨ m = 9 ∨ m = 11 then 30
  else 31

namespace Time

/-- The fields denote a real date and time of day. -/
def WellFormed (t : Time) : Prop :=
  1 ≤ t.month ∧ t.month ≤ 12 ∧ 1 ≤ t.day ∧ t.day ≤ daysIn t.month t.year.toNat ∧
  t.hour < 24 ∧ t.minute < 60 ∧ t.second < 60 ∧ t.nano < 10 ^ 9

instance (t : Time) : Decidable (WellFormed t) := by unfold WellFormed; infer_instance

/-- Fraction of a second in the layout `.999999999`. -/
def fmtFrac (nano : Nat) : List Char :=
  if nano = 0 then [] else '.' :: fracDigits 9 nano

/-- Zone in the layout `Z07:00`: the offset in whole minutes, its seconds
dropped. -/
def fmtZone (off : Int) : List Char :=
  if off = 0 then ['Z']
  else (if off ≤ -60 then '-' else '+') ::
    (padNat 2 (off.natAbs / 60 / 60) ++ ':' :: padNat 2 (off.natAbs / 60 % 60))

/-- Layout `time.RFC3339Nano`. -/
def format (t : Time) : List Char :=
  padNat 4 t.year.toNat ++ '-' :: (padNat 2 t.month ++ '-' :: (padNat 2 t.day ++ 'T' ::
    (padNat 2 t.hour ++ ':' :: (padNat 2 t.minute ++ ':' :: (padNat 2 t.second ++
      (fmtFrac t.nano ++ fmtZone t.offset))))))

/-- Method `Time.MarshalJSON`: the RFC 3339 text, refused when the year or the
zone hour does not fit the format. -/
def MarshalJSON (t : Time) : Except Error String :=
  if t.year < 0 ∨ 9999 < t.year then
    .error (utf8 "Time.MarshalJSON: year outside of range [0,9999]")
  else if 24 ≤ t.offset.natAbs / 60 / 60 then
    .error (utf8 "Time.MarshalJSON: timezone hour outside of range [0,23]")
  else .ok (String.mk (format t))

/-- Reads `w` digits and the separator that follows them. -/
def readField (w : Nat) (sep : Char) (cs : List Char) : Option (Nat × List Char) :=
  match readNat w cs with
  | none => none
  | some (n, rest) =>
    match expect sep rest with
    | none => none
    | some rest1 => some (n, rest1)

/-- The hour: two digits, or one digit when no second digit follows. -/
def readHour : List Char → Option (Nat × List Char)
  | [] => none
  | c :: cs =>
    match digitVal c with
    | none => none
    | some d1 =>
      match cs with
      | [] => some (d1, [])
      | c2 :: cs2 =>
        match digitVal c2 with
        | none => some (d1, c2 :: cs2)
        | some d2 => some (d1 * 10 + d2, cs2)

/-- Optional fraction of a second: a period or a comma followed by at least one
digit. -/
def readFrac : List Char → Nat × List Char
  | [] => (0, [])
  | c :: cs =>
    if c = '.' ∨ c = ',' then
      match spanDigits cs with
      | ([], _) => (0, c :: cs)
      | (d :: ds, rest) => (fracVal 9 (d :: ds), rest)
    else (0, c :: cs)

/-- Zone designator, which must end the text: `Z` or a signed `hh:mm` with an
hour up to 24 and a minute up to 60. The result is in seconds. -/
def readZone (cs : List Char) : Option Int :=
  match cs with
  | [] => none
  | s :: rest =>
    if s = 'Z' then (if rest = [] then some 0 else none)
    else if s = '+' ∨ s = '-' then
      match readNat 2 rest with
      | none => none
      | some (hh, rest1) =>
        match expect ':' rest1 with
        | none => none
        | some rest2 =>
          match readNat 2 rest2 with
          | none => none
          | some (mm, rest3) =>
            if rest3 = [] ∧ hh ≤ 24 ∧ mm ≤ 60 then
              some (if s = '-' then -(((hh * 60 + mm) * 60 : Nat) : Int)
                else (((hh * 60 + mm) * 60 : Nat) : Int))
            else none
    else none

/-- Ranges checked on the fields read. -/
def inRange (y mo d h mi s : Nat) : Bool :=
  decide (1 ≤ mo ∧ mo ≤ 12 ∧ 1 ≤ d ∧ d ≤ daysIn mo y ∧ h < 24 ∧ mi < 60 ∧ s < 60)

/-- The reading of RFC 3339 text by `Time.UnmarshalJSON`, which tries the
strict form and falls back to `time.Parse(time.RFC3339, _)`: together they
take a four-digit year, two-digit month and day, an hour of one or two digits,
two-digit minute and second, an optional fraction after a period or a comma,
and the zone. The value read has no monotonic clock reading. -/
def parse (cs : List Char) : Option Time :=
  match readField 4 '-' cs with
  | none => none
  | some (y, c1) =>
  match readField 2 '-' c1 with
  | none => none
  | some (mo, c2) =>
  match readField 2 'T' c2 with
  | none => none
  | some (d, c3) =>
  match readHour c3 with
  | none => none
  | some (h, c3a) =>
  match expect ':' c3a with
  | none => none
  | some c4 =>
  match readField 2 ':' c4 with
  | none => none
  | some (mi, c5) =>
  match readNat 2 c5 with
  | none => none
  | some (s, c6) =>
  match readZone (readFrac c6).2 with
  | none => none
  | some off =>
    if inRange y mo d h mi s then
      some ⟨(y : Int), mo, d, h, mi, s, (readFrac c6).1, off, none⟩
    else none

/-- The zone offset with its seconds dropped, as the zone designator shows
it. -/
def truncOffset (off : Int) : Int :=
  if off < 0 then -((off.natAbs / 60 * 60 : Nat) : Int) else ((off.natAbs / 60 * 60 : Nat) : Int)

/-- What is left of a timestamp after `MarshalJSON` and `UnmarshalJSON`: the
zone offset in whole minutes and no monotonic clock reading. -/
def wire (t : Time) : Time := { t with offset := truncOffset t.offset, mono := none }

/-- A timestamp that `Time.MarshalJSON` accepts: the year is in 0 to 9999 and
the zone offset is below 24 hours. -/
def Marshalable (t : Time) : Prop :=
  0 ≤ t.year ∧ t.year ≤ 9999 ∧ t.offset.natAbs / 60 / 60 < 24

instance (t : Time) : Decidable t.Marshalable := by unfold Marshalable; infer_instance

/-- A timestamp that the encoding carries in full: a real date and time that
`Time.MarshalJSON` accepts, with a zone offset of whole minutes and without a
monotonic clock reading. -/
def Valid (t : Time) : Prop :=
  t.WellFormed ∧ t.Marshalable ∧ t.offset % 60 = 0 ∧ t.mono = none

instance (t : Time) : Decidable t.Valid := by unfold Valid; infer_instance

end Time

/-! ## encoding/json -/

/-- JSON documents; strings and member names are Unicode text. Number literals
that are not integer literals keep their text only. -/
inductive JSON where
  | null
  | bool (b : Bool)
  | int (n : Int)
  | frac (lit : String)
  | str (s : String)
  | arr (items : List JSON)
  | obj (members : List (String × JSON))

/-- A byte slice handed to or produced by `encoding/json`: the document it
spells, or `none` when the bytes are not JSON text. -/
abbrev Bytes := Option JSON

/-- Case folding of one character as far as it matters for names in ASCII: the
letters fold to lower case, and so do the two characters outside ASCII that
Unicode simple case folding puts with an ASCII letter, U+017F with s and
U+212A with k. -/
def foldChar (c : Char) : Char :=
  if c = Char.ofNat 0x017F then 's'
  else if c = Char.ofNat 0x212A then 'k'
  else c.toLower

/-- Case folding under which `json.Unmarshal` matches object keys with struct
fields. The tags of `ServiceInstance` are ASCII, so two names are compared
after `foldChar`. -/
def foldName (s : String) : String := String.mk (s.data.map foldChar)

/-! ## internal/models/service.go -/

/-- Struct `ServiceInstance`. -/
structure ServiceInstance where
  ID : GoString
  Name : GoString
  Version : GoString
  Host : GoString
  Port : Int
  Metadata : Option (GoMap GoString)
  Status : GoString
  UpdatedAt : Time
deriving DecidableEq

/-- Struct `RegisterRequest`. -/
structure RegisterRequest where
  Name : GoString
  Version : GoString
  Host : GoString
  Port : Int
  Metadata : Option (GoMap GoString)
deriving DecidableEq

/-- Zero value of `time.Time`, January 1, year 1, 00:00:00 UTC. -/
def Time.zero : Time := ⟨1, 1, 1, 0, 0, 0, 0, 0, none⟩

/-- Zero value of `ServiceInstance`, as declared by `var service ServiceInstance`. -/
def ServiceInstance.zero : ServiceInstance := ⟨[], [], [], [], 0, none, [], Time.zero⟩

/-- Number of entries of a map field, `len(m)`; zero for the nil map. -/
def mapLen {V : Type} : Option (GoMap V) → Nat
  | none => 0
  | some m => m.length

/-- The member written for the field tagged `json:"metadata,omitempty"`: left
out when the map has no entries, otherwise an object with one string member per
entry, in the order of the keys. -/
def metadataMember (md : Option (GoMap GoString)) : List (String × JSON) :=
  match md with
  | none => []
  | some [] => []
  | some (e :: es) =>
    [("metadata", JSON.obj ((e :: es).map fun kv => (toText kv.1, JSON.str (toText kv.2))))]

/-- Method `ToJSON`, that is `json.Marshal(s)`: one member per struct field
under its tag, in declaration order. -/
def ServiceInstance.ToJSON (s : ServiceInstance) : Except Error Bytes :=
  match s.UpdatedAt.MarshalJSON with
  | .error e => .error (utf8 "json: error calling MarshalJSON for type time.Time: " ++ e)
  | .ok stamp =>
    .ok (some (JSON.obj (
      [("id", JSON.str (toText s.ID)), ("name", JSON.str (toText s.Name)),
       ("version", JSON.str (toText s.Version)), ("host", JSON.str (toText s.Host)),
       ("port", JSON.int s.Port)]
      ++ metadataMember s.Metadata
      ++ [("status", JSON.str (toText s.Status)), ("updatedAt", JSON.str stamp)])))

/-- Decoding into a field of type `string`: a string is stored, `null` leaves
the field as it is, anything else is a type error. -/
def decodeString (v : JSON) (old : GoString) : Except Error GoString :=
  match v with
  | .str s => .ok (utf8 s)
  | .null => .ok old
  | _ => .error (utf8 "json: cannot unmarshal value into Go struct field of type string")

/-- Decoding into a field of type `int`: an integer literal in range is stored,
`null` leaves the field as it is. -/
def decodeInt (v : JSON) (old : Int) : Except Error Int :=
  match v with
  | .int n =>
    if IsGoInt n then .ok n
    else .error (utf8 "json: cannot unmarshal number into Go struct field of type int")
  | .null => .ok old
  | _ => .error (utf8 "json: cannot unmarshal value into Go struct field of type int")

/-- Members of an object decoded into a `map[string]string`, one map write per
member. -/
def decodeEntries : List (String × JSON) → GoMap GoString → Except Error (GoMap GoString)
  | [], m => .ok m
  | (k, v) :: rest, m =>
    match v with
    | .str s => decodeEntries rest (GoMap.set m (utf8 k) (utf8 s))
    | .null => decodeEntries rest (GoMap.set m (utf8 k) [])
    | _ => .error (utf8 "json: cannot unmarshal value into Go value of type string")

/-- Decoding into a field of type `map[string]string`: an object is merged into
the map (allocated when nil), `null` sets the nil map. -/
def decodeMap (v : JSON) (old : Option (GoMap GoString)) :
    Except Error (Option (GoMap GoString)) :=
  match v with
  | .obj members =>
    match decodeEntries members (old.getD []) with
    | .ok m => .ok (some m)
    | .error e => .error e
  | .null => .ok none
  | _ =>
    .error (utf8 "json: cannot unmarshal value into Go struct field of type map[string]string")

/-- Method `Time.UnmarshalJSON`: `null` is a no-op, a string must be RFC 3339.
The method reads the characters between the quotes as they are spelled; a
timestamp spelled with escape sequences, which `Time.MarshalJSON` never writes,
is refused by the method and is not told apart in a document. -/
def decodeTime (v : JSON) (old : Time) : Except Error Time :=
  match v with
  | .str s =>
    match Time.parse s.data with
    | some t => .ok t
    | none => .error (utf8 "parsing time: not in RFC 3339 format")
  | .null => .ok old
  | _ => .error (utf8 "Time.UnmarshalJSON: input is not a JSON string")

/-- One object member decoded into the struct: the key selects the field by
its tag, unknown keys are skipped. -/
def decodeMember (s : ServiceInstance) (m : String × JSON) : Except Error ServiceInstance :=
  let key := foldName m.1
  if key = foldName "id" then (decodeString m.2 s.ID).map fun x => { s with ID := x }
  else if key = foldName "name" then (decodeString m.2 s.Name).map fun x => { s with Name := x }
  else if key = foldName "version" then
    (decodeString m.2 s.Version).map fun x => { s with Version := x }
  else if key = foldName "host" then (decodeString m.2 s.Host).map fun x => { s with Host := x }
  else if key = foldName "port" then (decodeInt m.2 s.Port).map fun x => { s with Port := x }
  else if key = foldName "metadata" then
    (decodeMap m.2 s.Metadata).map fun x => { s with Metadata := x }
  else if key = foldName "status" then
    (decodeString m.2 s.Status).map fun x => { s with Status := x }
  else if key = foldName "updatedAt" then
    (decodeTime m.2 s.UpdatedAt).map fun x => { s with UpdatedAt := x }
  else .ok s

/-- Members decoded one after the other. -/
def decodeMembers : List (String × JSON) → ServiceInstance → Except Error ServiceInstance
  | [], s => .ok s
  | m :: rest, s =>
    match decodeMember s m with
    | .ok s1 => decodeMembers rest s1
    | .error e => .error e

/-- Function `FromJSON`, that is `json.Unmarshal(data, &service)` on a zero
struct. The struct returned next to a non-nil error is not represented: no
caller reads it. -/
def FromJSON (data : Bytes) : Except Error ServiceInstance :=
  match data with
  | none => .error (utf8 "invalid character looking for beginning of value")
  | some .null => .ok ServiceInstance.zero
  | some (.obj members) => decodeMembers members ServiceInstance.zero
  | some _ =>
    .error (utf8 "json: cannot unmarshal value into Go value of type models.ServiceInstance")

/-! ## github.com/google/uuid -/

/-- A UUID: sixteen bytes. -/
structure UUID where
  bytes : List Nat
  size : bytes.length = 16
  range : ∀ b ∈ bytes, b < 256
deriving DecidableEq

/-- Lower-case hexadecimal digit, as a byte. -/
def hexDigit (d : Nat) : Nat := if d % 16 < 10 then 48 + d % 16 else 87 + d % 16

/-- Two hexadecimal digits per byte. -/
def hexBytes : List Nat → GoString
  | [] => []
  | b :: rest => hexDigit (b / 16) :: hexDigit b :: hexBytes rest

/-- Method `UUID.String`: the form xxxxxxxx-xxxx-xxxx-xxxx-xxxxxxxxxxxx. -/
def UUID.string (u : UUID) : GoString :=
  hexBytes (u.bytes.take 4) ++ 45 ::
    (hexBytes ((u.bytes.drop 4).take 2) ++ 45 ::
    (hexBytes ((u.bytes.drop 6).take 2) ++ 45 ::
    (hexBytes ((u.bytes.drop 8).take 2) ++ 45 ::
      hexBytes (u.bytes.drop 10))))

/-! ## The key-value store (go.etcd.io/etcd/client/v3)

The store is an external collaborator. Its state and the five calls the
registry makes follow its contract: `Grant`, `Put` with a lease, `Revoke`,
`Get` by key range and `Delete`. A call that fails has no effect on the store
contents. No registry operation lets time pass; the expiry of a lease is the
separate step `Etcd.expire`. -/

/-- Type `clientv3.LeaseID`. -/
abbrev LeaseID := Int

/-- A stored record: key, value and the lease it is attached to (0 for none). -/
structure KeyValue where
  Key : GoString
  Value : Bytes
  Lease : LeaseID

/-- A call issued to the store. -/
inductive Call where
  | grant (ttl : Int)
  | put (key : GoString) (value : Bytes) (lease : LeaseID)
  | revoke (lease : LeaseID)
  | get (keyStart : GoString)
  | delete (key : GoString)
  | watch (keyStart : GoString)

/-- Store state as seen through one client: the records in increasing key
order, the live leases with their time-to-live, the next lease id to hand out,
and the calls issued so far, oldest first. -/
structure Etcd where
  kvs : List KeyValue
  leases : List (LeaseID × Int)
  nextLease : LeaseID
  calls : List Call

/-- What `context.Context` and the network decide about the store calls of one
registry operation: for each kind of call, the error with which it fails
before taking effect (cancellation, timeout, lost connection), or `none`. -/
structure Context where
  grantErr : Option Error
  putErr : Option Error
  revokeErr : Option Error
  getErr : Option Error
  deleteErr : Option Error

/-- A context under which every call reaches the store. -/
def Context.background : Context := ⟨none, none, none, none, none⟩

namespace Etcd

/-- A store without records or leases. -/
def empty : Etcd := ⟨[], [], 1, []⟩

/-- Records with `kv` stored under its key, replacing a record of that key. -/
def insertKV : List KeyValue → KeyValue → List KeyValue
  | [], kv => [kv]
  | kv' :: rest, kv =>
    if kv.Key < kv'.Key then kv :: kv' :: rest
    else if kv.Key = kv'.Key then kv :: rest
    else kv' :: insertKV rest kv

/-- Call `Grant(ctx, ttl)`: a new lease with a fresh id. -/
def Grant (c : Etcd) (ctx : Context) (ttl : Int) : Except Error LeaseID × Etcd :=
  let c1 := { c with calls := c.calls ++ [Call.grant ttl] }
  match ctx.grantErr with
  | some err => (.error err, c1)
  | none =>
    (.ok c.nextLease,
      { c1 with leases := c.leases ++ [(c.nextLease, ttl)], nextLease := c.nextLease + 1 })

/-- Call `Put(ctx, key, value, WithLease(lease))`. -/
def Put (c : Etcd) (ctx : Context) (key : GoString) (value : Bytes) (lease : LeaseID) :
    Except Error Unit × Etcd :=
  let c1 := { c with calls := c.calls ++ [Call.put key value lease] }
  match ctx.putErr with
  | some err => (.error err, c1)
  | none =>
    if c.leases.any (fun l => l.1 = lease) then
      (.ok (), { c1 with kvs := insertKV c.kvs ⟨key, value, lease⟩ })
    else (.error (utf8 "etcdserver: requested lease not found"), c1)

/-- Call `Revoke(ctx, lease)`: the lease ends and every record attached to it
is removed. -/
def Revoke (c : Etcd) (ctx : Context) (lease : LeaseID) : Except Error Unit × Etcd :=
  let c1 := { c with calls := c.calls ++ [Call.revoke lease] }
  match ctx.revokeErr with
  | some err => (.error err, c1)
  | none =>
    if c.leases.any (fun l => l.1 = lease) then
      (.ok (), { c1 with
        kvs := c.kvs.filter (fun kv => kv.Lease ≠ lease),
        leases := c.leases.filter (fun l => l.1 ≠ lease) })
    else (.error (utf8 "etcdserver: requested lease not found"), c1)

/-- Call `Get(ctx, key, WithPrefix())`: the records whose key starts with
`key`, in key order. -/
def Get (c : Etcd) (ctx : Context) (key : GoString) : Except Error (List KeyValue) × Etcd :=
  let c1 := { c with calls := c.calls ++ [Call.get key] }
  match ctx.getErr with
  | some err => (.error err, c1)
  | none => (.ok (c.kvs.filter (fun kv => key.isPrefixOf kv.Key)), c1)

/-- Call `Delete(ctx, key)`. -/
def Delete (c : Etcd) (ctx : Context) (key : GoString) : Except Error Unit × Etcd :=
  let c1 := { c with calls := c.calls ++ [Call.delete key] }
  match ctx.deleteErr with
  | some err => (.error err, c1)
  | none => (.ok (), { c1 with kvs := c.kvs.filter (fun kv => kv.Key ≠ key) })

/-- The time-to-live of a lease runs out: the store ends the lease and removes
the records attached to it. -/
def expire (c : Etcd) (lease : LeaseID) : Etcd :=
  { c with
    kvs := c.kvs.filter (fun kv => kv.Lease ≠ lease),
    leases := c.leases.filter (fun l => l.1 ≠ lease) }

/-- Call `Watch(ctx, key, WithPrefix())`; the event stream is not represented. -/
def Watch (c : Etcd) (key : GoString) : Etcd :=
  { c with calls := c.calls ++ [Call.watch key] }

end Etcd

/-! ## internal/discovery/client.go -/

/-- Constant `serviceKeyPrefix`. -/
def serviceKeyPrefix : GoString := utf8 "/services/"

/-- Constant `defaultTTL`, in seconds. -/
def defaultTTL : Int := 30

/-- Struct `ServiceRegistry`: the store client and the Lease Tracker map. The
`timeout` field is never read and is left out. -/
structure ServiceRegistry where
  client : Etcd
  leases : GoMap LeaseID

/-- Function `NewServiceRegistry`, once the client is connected: an empty Lease
Tracker. -/
def NewServiceRegistry (client : Etcd) : ServiceRegistry :=
  { client := client, leases := [] }

/-- Method `serviceKey`: `fmt.Sprintf("%s%s/%s", serviceKeyPrefix, serviceName, instanceID)`. -/
def serviceKey (serviceName instanceID : GoString) : GoString :=
  serviceKeyPrefix ++ serviceName ++ utf8 "/" ++ instanceID

/-- The key range `fmt.Sprintf("%s%s/", serviceKeyPrefix, name)` that
`GetService` reads and `Watch` subscribes to. -/
def servicePrefix (name : GoString) : GoString :=
  serviceKeyPrefix ++ name ++ utf8 "/"

/-- Method `Register`. The id comes from `uuid.New()` and the timestamp from
`time.Now()`. The keepalive goroutine started on success only renews the lease;
it touches neither the records nor the Lease Tracker and is not represented. -/
def Register (sr : ServiceRegistry) (ctx : Context) (id : UUID) (now : Time)
    (req : RegisterRequest) : Except Error ServiceInstance × ServiceRegistry :=
  let inst : ServiceInstance :=
    { ID := id.string, Name := req.Name, Version := req.Version, Host := req.Host,
      Port := req.Port, Metadata := req.Metadata, Status := utf8 "UP", UpdatedAt := now }
  match sr.client.Grant ctx defaultTTL with
  | (.error err, c1) =>
    (.error (utf8 "failed to create lease: " ++ err), { sr with client := c1 })
  | (.ok lease, c1) =>
    let leases1 := GoMap.set sr.leases inst.ID lease
    match inst.ToJSON with
    | .error err =>
      (.error (utf8 "failed to marshal service data: " ++ err),
        { client := c1, leases := leases1 })
    | .ok data =>
      let key := serviceKey inst.Name inst.ID
      match c1.Put ctx key data lease with
      | (.error err, c2) =>
        (.error (utf8 "failed to register service: " ++ err),
          { client := c2, leases := leases1 })
      | (.ok _, c2) => (.ok inst, { client := c2, leases := leases1 })

/-- The tail of `Deregister`: delete the key and return the store's error. -/
def deleteKey (sr : ServiceRegistry) (ctx : Context) (serviceName instanceID : GoString) :
    Except Error Unit × ServiceRegistry :=
  match sr.client.Delete ctx (serviceKey serviceName instanceID) with
  | (.error err, c1) => (.error err, { sr with client := c1 })
  | (.ok _, c1) => (.ok (), { sr with client := c1 })

/-- Method `Deregister`. -/
def Deregister (sr : ServiceRegistry) (ctx : Context) (serviceName instanceID : GoString) :
    Except Error Unit × ServiceRegistry :=
  match GoMap.get sr.leases instanceID with
  | some leaseID =>
    match sr.client.Revoke ctx leaseID with
    | (.error err, c1) =>
      (.error (utf8 "failed to revoke lease: " ++ err), { sr with client := c1 })
    | (.ok _, c1) =>
      deleteKey { client := c1, leases := GoMap.delete sr.leases instanceID } ctx
        serviceName instanceID
  | none => deleteKey sr ctx serviceName instanceID

/-- The loop of `GetService` over `resp.Kvs`: a record that does not decode is
skipped, a decoded instance is appended. -/
def collectInstances : List KeyValue → List ServiceInstance → List ServiceInstance
  | [], instances => instances
  | kv :: rest, instances =>
    match FromJSON kv.Value with
    | .error _ => collectInstances rest instances
    | .ok inst => collectInstances rest (instances ++ [inst])

/-- The error `GetService` returns when no instance was decoded. -/
def notFound (name : GoString) : Error := utf8 "no instances found for service: " ++ name

/-- Method `GetService`. -/
def GetService (sr : ServiceRegistry) (ctx : Context) (name : GoString) :
    Except Error (List ServiceInstance) × ServiceRegistry :=
  match sr.client.Get ctx (servicePrefix name) with
  | (.error err, c1) =>
    (.error (utf8 "failed to get service instances: " ++ err), { sr with client := c1 })
  | (.ok kvs, c1) =>
    let instances := collectInstances kvs []
    if instances.length = 0 then (.error (notFound name), { sr with client := c1 })
    else (.ok instances, { sr with client := c1 })

/-- The loop of `GetAllServices` over `resp.Kvs`: a decoded instance is
appended to the list under its name, which is created first when missing. -/
def groupInstances :
    List KeyValue → GoMap (List ServiceInstance) → GoMap (List ServiceInstance)
  | [], services => services
  | kv :: rest, services =>
    match FromJSON kv.Value with
    | .error _ => groupInstances rest services
    | .ok inst =>
      let services1 :=
        match GoMap.get services inst.Name with
        | some _ => services
        | none => GoMap.set services inst.Name []
      groupInstances rest
        (GoMap.set services1 inst.Name ((GoMap.get services1 inst.Name).getD [] ++ [inst]))

/-- Method `GetAllServices`. -/
def GetAllServices (sr : ServiceRegistry) (ctx : Context) :
    Except Error (GoMap (List ServiceInstance)) × ServiceRegistry :=
  match sr.client.Get ctx serviceKeyPrefix with
  | (.error err, c1) =>
    (.error (utf8 "failed to get all services: " ++ err), { sr with client := c1 })
  | (.ok kvs, c1) => (.ok (groupInstances kvs []), { sr with client := c1 })

/-- Method `Watch`: subscribes to the key range of the service. -/
def Watch (sr : ServiceRegistry) (serviceName : GoString) : ServiceRegistry :=
  { sr with client := sr.client.Watch (servicePrefix serviceName) }

/-! ## Vocabulary of the properties -/

/-- A map field lists its entries in increasing key order (nothing to ask of
the nil map). -/
def mapOrdered {V : Type} : Option (GoMap V) → Prop
  | none => True
  | some m => GoMap.Ordered m

instance {V : Type} (md : Option (GoMap V)) : Decidable (mapOrdered md) := by
  cases md <;> unfold mapOrdered <;> infer_instance

/-- The keys and the values of a map field are valid UTF-8. -/
def mapValidUTF8 (md : Option (GoMap GoString)) : Prop :=
  ∀ kv ∈ md.getD [], ValidUTF8 kv.1 ∧ ValidUTF8 kv.2

/-- A valid `ServiceInstance`: its strings are valid UTF-8, the port is a Go
`int`, the metadata is a Go map, and the timestamp is one that the encoding
carries in full. -/
def ServiceInstance.Valid (s : ServiceInstance) : Prop :=
  ValidUTF8 s.ID ∧ ValidUTF8 s.Name ∧ ValidUTF8 s.Version ∧ ValidUTF8 s.Host ∧
  ValidUTF8 s.Status ∧ IsGoInt s.Port ∧ mapOrdered s.Metadata ∧ mapValidUTF8 s.Metadata ∧
  s.UpdatedAt.Valid

/-- What is left of a metadata map after `json.Marshal` and `json.Unmarshal`:
a map without entries is not written and comes back as the nil map, the other
maps are rebuilt from their entries as written. -/
def wireMap : Option (GoMap GoString) → Option (GoMap GoString)
  | none => none
  | some [] => none
  | some (e :: es) =>
    some ((e :: es).foldl (fun a kv => GoMap.set a (wireString kv.1) (wireString kv.2)) [])

/-- What is left of an instance after `ToJSON` and `FromJSON`. -/
def ServiceInstance.wire (s : ServiceInstance) : ServiceInstance :=
  { ID := wireString s.ID, Name := wireString s.Name, Version := wireString s.Version,
    Host := wireString s.Host, Port := s.Port, Metadata := wireMap s.Metadata,
    Status := wireString s.Status, UpdatedAt := s.UpdatedAt.wire }

/-- The decodings of the records that `FromJSON` accepts, in the order of the
records. -/
def decodeAll (kvs : List KeyValue) : List ServiceInstance :=
  kvs.filterMap fun kv => (FromJSON kv.Value).toOption

/-- The instances of all groups of a result of `GetAllServices`. -/
def allInstances (groups : GoMap (List ServiceInstance)) : List ServiceInstance :=
  (groups.map Prod.snd).flatten

/-- Registry states whose store has been populated by `Register` calls: the
states reached from a new registry by `Register` calls for which `uuid.New()`
returned pairwise distinct UUIDs, by `Deregister` calls, by reads, by the
expiry of leases, and by a restart of the process, which loses the Lease
Tracker. The list records the service name and the UUID of every `Register`
call made. -/
inductive Populated : ServiceRegistry → List (GoString × UUID) → Prop where
  | init : Populated (NewServiceRegistry Etcd.empty) []
  | register {sr : ServiceRegistry} {regs : List (GoString × UUID)}
      (ctx : Context) (id : UUID) (now : Time) (req : RegisterRequest) :
      Populated sr regs → (∀ p ∈ regs, p.2 ≠ id) →
      Populated (Register sr ctx id now req).2 ((req.Name, id) :: regs)
  | deregister {sr : ServiceRegistry} {regs : List (GoString × UUID)}
      (ctx : Context) (serviceName instanceID : GoString) :
      Populated sr regs → Populated (Deregister sr ctx serviceName instanceID).2 regs
  | getService {sr : ServiceRegistry} {regs : List (GoString × UUID)}
      (ctx : Context) (name : GoString) :
      Populated sr regs → Populated (GetService sr ctx name).2 regs
  | getAllServices {sr : ServiceRegistry} {regs : List (GoString × UUID)} (ctx : Context) :
      Populated sr regs → Populated (GetAllServices sr ctx).2 regs
  | watch {sr : ServiceRegistry} {regs : List (GoString × UUID)} (serviceName : GoString) :
      Populated sr regs → Populated (Watch sr serviceName) regs
  | expire {sr : ServiceRegistry} {regs : List (GoString × UUID)} (lease : LeaseID) :
      Populated sr regs → Populated { sr with client := sr.client.expire lease } regs
  | restart {sr : ServiceRegistry} {regs : List (GoString × UUID)} :
      Populated sr regs → Populated { sr with leases := [] } regs

/-! ## Sample values -/

/-- A timestamp with a fraction of a second and a zone west of UTC, without a
monotonic clock reading. -/
def sampleTime : Time := ⟨2024, 2, 29, 23, 59, 58, 120000000, -19800, none⟩

/-- A reading of `time.Now()`: the same timestamp with a monotonic clock
reading. -/
def sampleNow : Time := { sampleTime with mono := some 1234567 }

/-- A timestamp in a zone whose offset is not a whole number of minutes. -/
def sampleTimeOffsetSeconds : Time := { sampleTime with offset := 3601 }

/-- A timestamp that `Time.MarshalJSON` refuses. -/
def sampleTimeYear10000 : Time := { sampleTime with year := 10000 }

/-- A first id. -/
def sampleUUID1 : UUID :=
  ⟨[1, 2, 3, 4, 5, 6, 7, 8, 9, 10, 11, 12, 13, 14, 15, 255], rfl, by decide⟩

/-- A second id. -/
def sampleUUID2 : UUID :=
  ⟨[2, 2, 3, 4, 5, 6, 7, 8, 9, 10, 11, 12, 13, 14, 15, 255], rfl, by decide⟩

/-- The request of the registration scenario. -/
def sampleRequest : RegisterRequest :=
  ⟨utf8 "hello", utf8 "v1", utf8 "10.0.0.1", 8080, none⟩

/-- An instance with two metadata entries. -/
def sampleInstance : ServiceInstance :=
  ⟨utf8 "01020304-0506-0708-090a-0b0c0d0e0fff", utf8 "hello", utf8 "v1", utf8 "10.0.0.1", 8080,
    some [(utf8 "region", utf8 "eu"), (utf8 "zone", utf8 "b")], utf8 "UP", sampleTime⟩

/-- The same instance with a metadata map that is allocated but empty. -/
def sampleInstanceEmptyMetadata : ServiceInstance := { sampleInstance with Metadata := some [] }

/-- The same instance with a name that is not valid UTF-8: the single byte
0xFF. -/
def sampleInstanceInvalidName : ServiceInstance := { sampleInstance with Name := [0xFF] }

/-- The same instance with a zone offset of one hour and one second. -/
def sampleInstanceOffsetSeconds : ServiceInstance :=
  { sampleInstance with UpdatedAt := sampleTimeOffsetSeconds }

/-- The same instance with a timestamp read from `time.Now()`. -/
def sampleInstanceNow : ServiceInstance := { sampleInstance with UpdatedAt := sampleNow }

/-- A registry with an empty store and an empty Lease Tracker, as
`NewServiceRegistry` returns it. -/
def sampleRegistry : ServiceRegistry := NewServiceRegistry Etcd.empty

/-- A stored document that carries an id and a name. -/
def sampleDoc (id name : String) : Bytes :=
  some (JSON.obj [("id", JSON.str id), ("name", JSON.str name)])

/-- A store with two records of service hello around a record that is not JSON
text, and one record of service world. -/
def sampleStore : Etcd :=
  ⟨[⟨utf8 "/services/hello/a1", sampleDoc "a1" "hello", 0⟩,
    ⟨utf8 "/services/hello/a2", none, 0⟩,
    ⟨utf8 "/services/hello/a3", sampleDoc "a3" "hello", 0⟩,
    ⟨utf8 "/services/world/b1", sampleDoc "b1" "world", 0⟩], [], 1, []⟩

/-- A store whose only record of service hello is not JSON text. -/
def sampleStoreCorrupt : Etcd :=
  ⟨[⟨utf8 "/services/hello/a2", none, 0⟩,
    ⟨utf8 "/services/world/b1", sampleDoc "b1" "world", 0⟩], [], 1, []⟩

/-- A context under which the grant reaches the store and the write does not. -/
def sampleContextPutFails : Context :=
  { Context.background with putErr := some (utf8 "context deadline exceeded") }

/-- A context under which the revoke does not reach the store. -/
def sampleContextRevokeFails : Context :=
  { Context.background with revokeErr := some (utf8 "context deadline exceeded") }

theorem digitVal_digitChar (d : Nat) : digitVal (digitChar d) = some (d % 10) := by
  have h : d % 10 < 10 := Nat.mod_lt _ (by decide)
  unfold digitChar
  generalize d % 10 = r at h ⊢
  interval_cases r <;> rfl

theorem digitVal_digitChar_lt {d : Nat} (h : d < 10) : digitVal (digitChar d) = some d := by
  rw [digitVal_digitChar, Nat.mod_eq_of_lt h]

theorem div_pow_lt_ten {w n : Nat} (h : n < 10 ^ (w + 1)) : n / 10 ^ w < 10 := by
  have hpos : 0 < 10 ^ w := by positivity
  rw [Nat.div_lt_iff_lt_mul hpos]
  calc n < 10 ^ (w + 1) := h
    _ = 10 * 10 ^ w := by rw [pow_succ, Nat.mul_comm]

theorem readNat_padNat (w : Nat) : ∀ (n : Nat) (rest : List Char), n < 10 ^ w →
    readNat w (padNat w n ++ rest) = some (n, rest) := by
  induction w with
  | zero =>
    intro n rest h
    have : n = 0 := by simpa using h
    subst this
    rfl
  | succ w ih =>
    intro n rest h
    have hpos : 0 < 10 ^ w := by positivity
    have hr : n % 10 ^ w < 10 ^ w := Nat.mod_lt _ hpos
    simp only [padNat, List.cons_append, readNat, digitVal_digitChar_lt (div_pow_lt_ten h),
      List.append_eq]
    rw [ih _ rest hr]
    simp only [Nat.div_add_mod']

theorem spanDigits_fracDigits (w : Nat) : ∀ (n : Nat) (rest : List Char), n < 10 ^ w →
    (∀ c cs, rest = c :: cs → digitVal c = none) →
    (spanDigits (fracDigits w n ++ rest)).2 = rest ∧
    fracVal w (spanDigits (fracDigits w n ++ rest)).1 = n ∧
    (n ≠ 0 → (spanDigits (fracDigits w n ++ rest)).1 ≠ []) := by
  induction w with
  | zero =>
    intro n rest h hrest
    have : n = 0 := by simpa using h
    subst this
    refine ⟨?_, ?_, by simp⟩
    · cases rest with
      | nil => rfl
      | cons c cs => simp [fracDigits, spanDigits, hrest c cs rfl]
    · simp [fracVal]
  | succ w ih =>
    intro n rest h hrest
    have hpos : 0 < 10 ^ w := by positivity
    have hr : n % 10 ^ w < 10 ^ w := Nat.mod_lt _ hpos
    by_cases hn : n = 0
    · subst hn
      refine ⟨?_, ?_, by simp⟩
      · cases rest with
        | nil => rfl
        | cons c cs => simp [fracDigits, spanDigits, hrest c cs rfl]
      · cases rest with
        | nil => simp [fracDigits, spanDigits, fracVal]
        | cons c cs => simp [fracDigits, spanDigits, hrest c cs rfl, fracVal]
    · obtain ⟨h1, h2, _⟩ := ih (n % 10 ^ w) rest hr hrest
      simp only [fracDigits, hn, if_false, List.cons_append, spanDigits,
        digitVal_digitChar_lt (div_pow_lt_ten h), fracVal, List.append_eq, h1, h2]
      refine ⟨trivial, ?_, by simp⟩
      exact Nat.div_add_mod' n (10 ^ w)

namespace Time

theorem readFrac_fmtFrac (nano : Nat) (rest : List Char) (h : nano < 10 ^ 9)
    (hrest : ∀ c cs, rest = c :: cs → digitVal c = none ∧ c ≠ '.' ∧ c ≠ ',') :
    readFrac (fmtFrac nano ++ rest) = (nano, rest) := by
  by_cases hn : nano = 0
  · subst hn
    cases rest with
    | nil => rfl
    | cons c cs => simp [fmtFrac, readFrac, (hrest c cs rfl).2.1, (hrest c cs rfl).2.2]
  · obtain ⟨h1, h2, h3⟩ :=
      spanDigits_fracDigits 9 nano rest h (fun c cs hc => (hrest c cs hc).1)
    simp only [fmtFrac, hn, if_false, List.cons_append, readFrac, true_or, if_true]
    rcases hp : spanDigits (fracDigits 9 nano ++ rest) with ⟨ds, r⟩
    rw [hp] at h1 h2 h3
    cases ds with
    | nil => exact absurd rfl (h3 hn)
    | cons d ds =>
      simp only at h1 h2 ⊢
      rw [h1, h2]

theorem fmtZone_head (off : Int) :
    ∀ c cs, fmtZone off = c :: cs → digitVal c = none ∧ c ≠ '.' ∧ c ≠ ',' := by
  intro c cs hc
  unfold fmtZone at hc
  split at hc
  · injection hc with h1 _
    subst h1
    decide
  · injection hc with h1 _
    subst h1
    split <;> decide

theorem readZone_fmtZone (off : Int) (h : off.natAbs / 60 / 60 < 24) :
    readZone (fmtZone off) = some (truncOffset off) := by
  by_cases h0 : off = 0
  · subst h0
    rfl
  · have hh : off.natAbs / 60 / 60 < 10 ^ 2 := by omega
    have hm : off.natAbs / 60 % 60 < 10 ^ 2 := by omega
    have hh24 : off.natAbs / 60 / 60 ≤ 24 := by omega
    have hm60 : off.natAbs / 60 % 60 ≤ 60 := by omega
    have hsum : off.natAbs / 60 / 60 * 60 + off.natAbs / 60 % 60 = off.natAbs / 60 :=
      Nat.div_add_mod' _ _
    have key : ∀ s : Char, s ≠ 'Z' → (s = '+' ∨ s = '-') →
        readZone (s :: (padNat 2 (off.natAbs / 60 / 60) ++
            ':' :: padNat 2 (off.natAbs / 60 % 60))) =
          some (if s = '-' then -((off.natAbs / 60 * 60 : Nat) : Int)
            else ((off.natAbs / 60 * 60 : Nat) : Int)) := by
      intro s hs hs2
      have h2 := readNat_padNat 2 (off.natAbs / 60 % 60) [] hm
      rw [List.append_nil] at h2
      simp only [readZone, hs, if_false, hs2, if_true, readNat_padNat 2 _ _ hh, expect, h2,
        hh24, hm60, and_self, hsum]
    unfold fmtZone truncOffset
    rw [if_neg h0]
    by_cases hneg : off ≤ -60
    · rw [if_pos hneg, key '-' (by decide) (Or.inr rfl), if_pos rfl, if_pos (by omega)]
    · rw [if_neg hneg, key '+' (by decide) (Or.inl rfl), if_neg (by decide)]
      by_cases hlt : off < 0
      · rw [if_pos hlt]
        have hz : off.natAbs / 60 = 0 := by omega
        rw [hz]
        rfl
      · rw [if_neg hlt]

theorem readHour_padNat (h : Nat) (rest : List Char) (hh : h < 10 ^ 2) :
    readHour (padNat 2 h ++ rest) = some (h, rest) := by
  have h1 : h / 10 < 10 := by omega
  have h2 : h % 10 < 10 := by omega
  have e : h / 10 * 10 + h % 10 = h := Nat.div_add_mod' _ _
  simp only [padNat, Nat.pow_zero, Nat.pow_one, Nat.div_one, List.cons_append, List.nil_append,
    readHour, digitVal_digitChar_lt h1, digitVal_digitChar_lt h2, e]

theorem parse_format (t : Time) (hw : t.WellFormed) (hm : t.Marshalable) :
    parse (format t) = some t.wire := by
  obtain ⟨hm1, hm2, hd1, hd2, hh, hmi, hs, hn⟩ := hw
  obtain ⟨hy0, hy1, ho⟩ := hm
  have hyear : t.year.toNat < 10 ^ 4 := by omega
  have hmonth : t.month < 10 ^ 2 := by omega
  have hday : t.day < 10 ^ 2 := by
    have : daysIn t.month t.year.toNat ≤ 31 := by
      unfold daysIn
      split
      · split <;> omega
      · split <;> omega
    omega
  have hhour : t.hour < 10 ^ 2 := by omega
  have hmin : t.minute < 10 ^ 2 := by omega
  have hsec : t.second < 10 ^ 2 := by omega
  have hfrac := readFrac_fmtFrac t.nano (fmtZone t.offset) hn (fmtZone_head t.offset)
  have hrange : inRange t.year.toNat t.month t.day t.hour t.minute t.second = true := by
    simp only [inRange, decide_eq_true_eq]
    exact ⟨hm1, hm2, hd1, hd2, hh, hmi, hs⟩
  have hyy : ((t.year.toNat : Nat) : Int) = t.year := Int.toNat_of_nonneg hy0
  simp only [parse, format, readField, readNat_padNat 4 _ _ hyear, readNat_padNat 2 _ _ hmonth,
    readNat_padNat 2 _ _ hday, readHour_padNat _ _ hhour, readNat_padNat 2 _ _ hmin,
    readNat_padNat 2 _ _ hsec, expect, if_true, hfrac, readZone_fmtZone t.offset ho, hrange, hyy,
    wire]

theorem timeWire_of_whole (t : Time) (ho : t.offset % 60 = 0) (hmono : t.mono = none) :
    t.wire = t := by
  have htr : truncOffset t.offset = t.offset := by
    unfold truncOffset
    split <;> omega
  obtain ⟨y, mo, d, hr, mi, s, n, off, mono⟩ := t
  simp only at htr hmono
  simp only [wire, htr, hmono]

theorem timeWire_of_valid (t : Time) (h : t.Valid) : t.wire = t :=
  timeWire_of_whole t h.2.2.1 h.2.2.2

end Time

/-! ## UTF-8: decoding what was encoded -/

theorem decodeRune_one (b0 : Nat) (rest : List Nat) (h : b0 < 0x80) :
    decodeRune (b0 :: rest) = some (b0, rest) := by
  rw [decodeRune, if_pos h]

theorem decodeRune_two (b0 b1 : Nat) (rest : List Nat) (h : 0xC2 ≤ b0 ∧ b0 ≤ 0xDF)
    (h1 : 0x80 ≤ b1 ∧ b1 ≤ 0xBF) :
    decodeRune (b0 :: b1 :: rest) = some ((b0 - 0xC0) * 64 + (b1 - 0x80), rest) := by
  have hn : ¬ b0 < 0x80 := by omega
  have hc : isCont b1 = true := by simp only [isCont, decide_eq_true_eq]; exact h1
  rw [decodeRune, if_neg hn, if_pos h, decodeTwo, if_pos hc]

theorem decodeRune_three (b0 b1 b2 : Nat) (rest : List Nat) (h : 0xE0 ≤ b0 ∧ b0 ≤ 0xEF)
    (h1 : secondLow b0 ≤ b1 ∧ b1 ≤ secondHigh b0) (h2 : 0x80 ≤ b2 ∧ b2 ≤ 0xBF) :
    decodeRune (b0 :: b1 :: b2 :: rest) =
      some ((b0 - 0xE0) * 4096 + (b1 - 0x80) * 64 + (b2 - 0x80), rest) := by
  have hn : ¬ b0 < 0x80 := by omega
  have hn2 : ¬ (0xC2 ≤ b0 ∧ b0 ≤ 0xDF) := by omega
  have hc : isCont b2 = true := by simp only [isCont, decide_eq_true_eq]; exact h2
  rw [decodeRune, if_neg hn, if_neg hn2, if_pos h, decodeThree, if_pos ⟨h1.1, h1.2, hc⟩]

theorem decodeRune_four (b0 b1 b2 b3 : Nat) (rest : List Nat) (h : 0xF0 ≤ b0 ∧ b0 ≤ 0xF4)
    (h1 : secondLow b0 ≤ b1 ∧ b1 ≤ secondHigh b0) (h2 : 0x80 ≤ b2 ∧ b2 ≤ 0xBF)
    (h3 : 0x80 ≤ b3 ∧ b3 ≤ 0xBF) :
    decodeRune (b0 :: b1 :: b2 :: b3 :: rest) =
      some ((b0 - 0xF0) * 262144 + (b1 - 0x80) * 4096 + (b2 - 0x80) * 64 + (b3 - 0x80), rest) := by
  have hn : ¬ b0 < 0x80 := by omega
  have hn2 : ¬ (0xC2 ≤ b0 ∧ b0 ≤ 0xDF) := by omega
  have hn3 : ¬ (0xE0 ≤ b0 ∧ b0 ≤ 0xEF) := by omega
  have hc2 : isCont b2 = true := by simp only [isCont, decide_eq_true_eq]; exact h2
  have hc3 : isCont b3 = true := by simp only [isCont, decide_eq_true_eq]; exact h3
  rw [decodeRune, if_neg hn, if_neg hn2, if_neg hn3, if_pos h, decodeFour,
    if_pos ⟨h1.1, h1.2, hc2, hc3⟩]

theorem decodeRune_encodeRune (v : Nat) (rest : List Nat)
    (hv : v < 0xD800 ∨ (0xDFFF < v ∧ v < 0x110000)) :
    decodeRune (encodeRune v ++ rest) = some (v, rest) := by
  unfold encodeRune
  by_cases h1 : v < 0x80
  · rw [if_pos h1]
    exact decodeRune_one v rest h1
  · rw [if_neg h1]
    by_cases h2 : v < 0x800
    · rw [if_pos h2]
      have := decodeRune_two (0xC0 + v / 64) (0x80 + v % 64) rest (by omega) (by omega)
      have e : (0xC0 + v / 64 - 0xC0) * 64 + (0x80 + v % 64 - 0x80) = v := by omega
      rw [List.cons_append, List.cons_append, List.nil_append, this, e]
    · rw [if_neg h2]
      by_cases h3 : v < 0x10000
      · rw [if_pos h3]
        have hlo : secondLow (0xE0 + v / 4096) ≤ 0x80 + v / 64 % 64 := by
          unfold secondLow
          split
          · omega
          · split <;> omega
        have hhi : 0x80 + v / 64 % 64 ≤ secondHigh (0xE0 + v / 4096) := by
          unfold secondHigh
          split
          · omega
          · split <;> omega
        have := decodeRune_three (0xE0 + v / 4096) (0x80 + v / 64 % 64) (0x80 + v % 64) rest
          (by omega) ⟨hlo, hhi⟩ (by omega)
        have e : (0xE0 + v / 4096 - 0xE0) * 4096 + (0x80 + v / 64 % 64 - 0x80) * 64 +
            (0x80 + v % 64 - 0x80) = v := by omega
        rw [List.cons_append, List.cons_append, List.cons_append, List.nil_append, this, e]
      · rw [if_neg h3]
        have hlo : secondLow (0xF0 + v / 262144) ≤ 0x80 + v / 4096 % 64 := by
          unfold secondLow
          split
          · omega
          · split <;> omega
        have hhi : 0x80 + v / 4096 % 64 ≤ secondHigh (0xF0 + v / 262144) := by
          unfold secondHigh
          split
          · omega
          · split <;> omega
        have := decodeRune_four (0xF0 + v / 262144) (0x80 + v / 4096 % 64) (0x80 + v / 64 % 64)
          (0x80 + v % 64) rest (by omega) ⟨hlo, hhi⟩ (by omega) (by omega)
        have e : (0xF0 + v / 262144 - 0xF0) * 262144 + (0x80 + v / 4096 % 64 - 0x80) * 4096 +
            (0x80 + v / 64 % 64 - 0x80) * 64 + (0x80 + v % 64 - 0x80) = v := by omega
        rw [List.cons_append, List.cons_append, List.cons_append, List.cons_append,
          List.nil_append, this, e]

theorem char_toNat_valid (c : Char) :
    c.toNat < 0xD800 ∨ (0xDFFF < c.toNat ∧ c.toNat < 0x110000) := by
  have h := c.valid
  simp only [UInt32.isValidChar, Nat.isValidChar] at h
  exact h

theorem encodeRune_length_pos (v : Nat) : 0 < (encodeRune v).length := by
  unfold encodeRune
  split
  · simp
  · split
    · simp
    · split <;> simp

theorem decodeText_encodeRunes (cs : List Char) : ∀ fuel : Nat, (encodeRunes cs).length ≤ fuel →
    decodeText fuel (encodeRunes cs) = cs := by
  induction cs with
  | nil =>
    intro fuel _
    cases fuel <;> rfl
  | cons c cs ih =>
    intro fuel hf
    have hpos := encodeRune_length_pos c.toNat
    have hdec := decodeRune_encodeRune c.toNat (encodeRunes cs) (char_toNat_valid c)
    simp only [encodeRunes, List.length_append] at hf ⊢
    cases fuel with
    | zero => omega
    | succ fuel =>
      cases hb : encodeRune c.toNat ++ encodeRunes cs with
      | nil =>
        have := congrArg List.length hb
        simp only [List.length_append, List.length_nil] at this
        omega
      | cons b rest =>
        rw [hb] at hdec
        simp only [decodeText, hdec, Char.ofNat_toNat]
        rw [ih fuel (by omega)]

theorem toText_utf8 (s : String) : toText (utf8 s) = s := by
  unfold toText utf8
  rw [decodeText_encodeRunes s.data _ (Nat.le_refl _)]

theorem utf8_toText_of_valid (g : GoString) (h : ValidUTF8 g) : utf8 (toText g) = g := by
  obtain ⟨s, rfl⟩ := h
  rw [toText_utf8]

theorem validUTF8_utf8 (s : String) : ValidUTF8 (utf8 s) := ⟨s, rfl⟩

theorem wireString_of_valid (g : GoString) (h : ValidUTF8 g) : wireString g = g :=
  utf8_toText_of_valid g h

theorem validUTF8_of_ascii (g : GoString) (h : ∀ b ∈ g, b < 0x80) : ValidUTF8 g := by
  induction g with
  | nil => exact ⟨"", rfl⟩
  | cons b rest ih =>
    obtain ⟨s, hs⟩ := ih (fun x hx => h x (List.mem_cons_of_mem _ hx))
    have hb : b < 0x80 := h b (List.mem_cons_self _ _)
    refine ⟨String.mk (Char.ofNat b :: s.data), ?_⟩
    have hc : (Char.ofNat b).toNat = b := by
      have hv : b.isValidChar := Or.inl (by omega)
      simp only [Char.ofNat, dif_pos hv, Char.toNat, Char.ofNatAux]
      rfl
    show encodeRune (Char.ofNat b).toNat ++ encodeRunes s.data = b :: rest
    rw [hc]
    have hs2 : encodeRunes s.data = rest := hs
    rw [hs2]
    simp only [encodeRune, if_pos hb, List.singleton_append]

/-! ## UUID strings -/

theorem hexDigit_lt (d : Nat) : hexDigit d < 0x80 := by
  unfold hexDigit
  split <;> omega

theorem hexDigit_injective (d e : Nat) (hd : d < 16) (he : e < 16)
    (h : hexDigit d = hexDigit e) : d = e := by
  unfold hexDigit at h
  split at h <;> split at h <;> omega

theorem hexBytes_length (l : List Nat) : (hexBytes l).length = 2 * l.length := by
  induction l with
  | nil => rfl
  | cons b rest ih =>
    simp only [hexBytes, List.length_cons, ih]
    omega

theorem hexBytes_ascii (l : List Nat) : ∀ b ∈ hexBytes l, b < 0x80 := by
  induction l with
  | nil =>
    intro b hb
    cases hb
  | cons x rest ih =>
    intro b hb
    simp only [hexBytes, List.mem_cons] at hb
    rcases hb with hb | hb | hb
    · rw [hb]
      exact hexDigit_lt _
    · rw [hb]
      exact hexDigit_lt _
    · exact ih b hb

theorem hexBytes_injective (l : List Nat) : ∀ l' : List Nat,
    (∀ b ∈ l, b < 256) → (∀ b ∈ l', b < 256) → hexBytes l = hexBytes l' → l = l' := by
  induction l with
  | nil =>
    intro l' _ _ h
    cases l' with
    | nil => rfl
    | cons y ys => simp [hexBytes] at h
  | cons x xs ih =>
    intro l' hl hl' h
    cases l' with
    | nil => simp [hexBytes] at h
    | cons y ys =>
      simp only [hexBytes, List.cons.injEq] at h
      have hx : x < 256 := hl x (List.mem_cons_self _ _)
      have hy : y < 256 := hl' y (List.mem_cons_self _ _)
      have h1 := hexDigit_injective (x / 16) (y / 16) (by omega) (by omega) h.1
      have h2 : x % 16 = y % 16 := by
        have h3 := h.2.1
        unfold hexDigit at h3
        split at h3 <;> split at h3 <;> omega
      have hxy : x = y := by omega
      rw [hxy, ih ys (fun b hb => hl b (List.mem_cons_of_mem _ hb))
        (fun b hb => hl' b (List.mem_cons_of_mem _ hb)) h.2.2]

theorem UUID.string_injective (u v : UUID) (h : u.string = v.string) : u = v := by
  obtain ⟨bu, su, ru⟩ := u
  obtain ⟨bv, sv, rv⟩ := v
  simp only [UUID.string] at h
  have sub : ∀ (l : List Nat) (n : Nat), (∀ b ∈ l, b < 256) → ∀ b ∈ l.take n, b < 256 :=
    fun l n hl b hb => hl b (List.mem_of_mem_take hb)
  have subd : ∀ (l : List Nat) (n : Nat), (∀ b ∈ l, b < 256) → ∀ b ∈ l.drop n, b < 256 :=
    fun l n hl b hb => hl b (List.mem_of_mem_drop hb)
  have len : ∀ n m : Nat, n + m ≤ 16 →
      (hexBytes ((bu.drop n).take m)).length = (hexBytes ((bv.drop n).take m)).length := by
    intro n m hnm
    rw [hexBytes_length, hexBytes_length, List.length_take, List.length_take, List.length_drop,
      List.length_drop, su, sv]
  have l0 : (hexBytes (bu.take 4)).length = (hexBytes (bv.take 4)).length := by
    rw [hexBytes_length, hexBytes_length, List.length_take, List.length_take, su, sv]
  obtain ⟨e1, h⟩ := List.append_inj h l0
  injection h with _ h
  obtain ⟨e2, h⟩ := List.append_inj h (len 4 2 (by omega))
  injection h with _ h
  obtain ⟨e3, h⟩ := List.append_inj h (len 6 2 (by omega))
  injection h with _ h
  obtain ⟨e4, h⟩ := List.append_inj h (len 8 2 (by omega))
  injection h with _ e5
  have t1 := hexBytes_injective _ _ (sub bu 4 ru) (sub bv 4 rv) e1
  have t2 := hexBytes_injective _ _ (sub _ 2 (subd bu 4 ru)) (sub _ 2 (subd bv 4 rv)) e2
  have t3 := hexBytes_injective _ _ (sub _ 2 (subd bu 6 ru)) (sub _ 2 (subd bv 6 rv)) e3
  have t4 := hexBytes_injective _ _ (sub _ 2 (subd bu 8 ru)) (sub _ 2 (subd bv 8 rv)) e4
  have t5 := hexBytes_injective _ _ (subd bu 10 ru) (subd bv 10 rv) e5
  have split : ∀ l : List Nat, l = l.take 4 ++ ((l.drop 4).take 2 ++ ((l.drop 6).take 2 ++
      ((l.drop 8).take 2 ++ l.drop 10))) := by
    intro l
    have a1 : (l.drop 8).take 2 ++ l.drop 10 = l.drop 8 := by
      have := List.take_append_drop 2 (l.drop 8)
      rw [List.drop_drop] at this
      exact this
    have a2 : (l.drop 6).take 2 ++ l.drop 8 = l.drop 6 := by
      have := List.take_append_drop 2 (l.drop 6)
      rw [List.drop_drop] at this
      exact this
    have a3 : (l.drop 4).take 2 ++ l.drop 6 = l.drop 4 := by
      have := List.take_append_drop 2 (l.drop 4)
      rw [List.drop_drop] at this
      exact this
    rw [a1, a2, a3, List.take_append_drop]
  have hb : bu = bv := by
    rw [split bu, split bv, t1, t2, t3, t4, t5]
  subst hb
  rfl

theorem UUID.string_ascii (u : UUID) : ∀ b ∈ u.string, b < 0x80 := by
  intro b hb
  simp only [UUID.string, List.mem_append, List.mem_cons] at hb
  rcases hb with hb | hb | hb | hb | hb | hb | hb | hb | hb
  · exact hexBytes_ascii _ b hb
  · omega
  · exact hexBytes_ascii _ b hb
  · omega
  · exact hexBytes_ascii _ b hb
  · omega
  · exact hexBytes_ascii _ b hb
  · omega
  · exact hexBytes_ascii _ b hb

theorem UUID.string_valid (u : UUID) : ValidUTF8 u.string :=
  validUTF8_of_ascii _ (UUID.string_ascii u)

theorem UUID.string_ne_empty (u : UUID) : u.string ≠ [] := by
  intro h
  have h2 := congrArg List.length h
  simp only [UUID.string, List.length_append, List.length_cons, List.length_nil] at h2
  omega

/-! ## Maps -/

namespace GoMap

theorem get_set {V : Type} (m : GoMap V) (k : GoString) (v : V) (k' : GoString) :
    get (set m k v) k' = if k' = k then some v else get m k' := by
  induction m with
  | nil => simp [set, get]
  | cons p rest ih =>
    obtain ⟨k0, v0⟩ := p
    simp only [set]
    split
    · simp [get]
    · split
      · rename_i h1 h2
        subst h2
        simp only [get]
        split <;> rfl
      · rename_i h1 h2
        simp only [get, ih]
        by_cases hk : k' = k0
        · subst hk
          have h3 : ¬ k' = k := fun h => h2 h.symm
          simp [h3]
        · simp [hk]

theorem get_set_self {V : Type} (m : GoMap V) (k : GoString) (v : V) :
    get (set m k v) k = some v := by
  rw [get_set, if_pos rfl]

theorem get_delete {V : Type} (m : GoMap V) (k k' : GoString) :
    get (delete m k) k' = if k' = k then none else get m k' := by
  induction m with
  | nil => simp [delete, get]
  | cons p rest ih =>
    obtain ⟨k0, v0⟩ := p
    simp only [delete]
    split
    · rename_i h
      subst h
      rw [ih]
      by_cases hk : k' = k
      · simp [hk]
      · simp [hk, get]
    · rename_i h
      simp only [get, ih]
      by_cases hk : k' = k0
      · subst hk
        have h3 : ¬ k' = k := fun h' => h h'.symm
        simp [h3]
      · simp [hk]

theorem set_append_last {V : Type} (m : GoMap V) (k : GoString) (v : V)
    (h : ∀ p ∈ m, p.1 < k) : set m k v = m ++ [(k, v)] := by
  induction m with
  | nil => rfl
  | cons p rest ih =>
    obtain ⟨k0, v0⟩ := p
    have h0 : k0 < k := h (k0, v0) (List.mem_cons_self _ _)
    have hnlt : ¬ k < k0 := lt_asymm h0
    have hne : k ≠ k0 := by
      intro e
      subst e
      exact lt_irrefl _ h0
    simp only [set, if_neg hnlt, if_neg hne, List.cons_append]
    rw [ih (fun p hp => h p (List.mem_cons_of_mem _ hp))]

theorem foldl_set_ordered {V : Type} (m : GoMap V) : ∀ acc : GoMap V, Ordered (acc ++ m) →
    m.foldl (fun a kv => set a kv.1 kv.2) acc = acc ++ m := by
  induction m with
  | nil => intro acc _; simp
  | cons p rest ih =>
    intro acc h
    have hlast : ∀ q ∈ acc, q.1 < p.1 := by
      intro q hq
      unfold Ordered at h
      rw [List.map_append, List.pairwise_append] at h
      exact h.2.2 q.1 (List.mem_map_of_mem _ hq) p.1 (by simp)
    simp only [List.foldl_cons]
    rw [set_append_last acc p.1 p.2 hlast]
    have h2 : Ordered ((acc ++ [(p.1, p.2)]) ++ rest) := by
      simpa [List.append_assoc] using h
    rw [ih _ h2]
    simp [List.append_assoc]

end GoMap

/-! ## Record encoding -/

theorem decodeMember_id (s : ServiceInstance) (v : JSON) :
    decodeMember s ("id", v) = (decodeString v s.ID).map fun x => { s with ID := x } := rfl

theorem decodeMember_name (s : ServiceInstance) (v : JSON) :
    decodeMember s ("name", v) = (decodeString v s.Name).map fun x => { s with Name := x } := rfl

theorem decodeMember_version (s : ServiceInstance) (v : JSON) :
    decodeMember s ("version", v) =
      (decodeString v s.Version).map fun x => { s with Version := x } := rfl

theorem decodeMember_host (s : ServiceInstance) (v : JSON) :
    decodeMember s ("host", v) = (decodeString v s.Host).map fun x => { s with Host := x } := rfl

theorem decodeMember_port (s : ServiceInstance) (v : JSON) :
    decodeMember s ("port", v) = (decodeInt v s.Port).map fun x => { s with Port := x } := rfl

theorem decodeMember_metadata (s : ServiceInstance) (v : JSON) :
    decodeMember s ("metadata", v) =
      (decodeMap v s.Metadata).map fun x => { s with Metadata := x } := rfl

theorem decodeMember_status (s : ServiceInstance) (v : JSON) :
    decodeMember s ("status", v) =
      (decodeString v s.Status).map fun x => { s with Status := x } := rfl

theorem decodeMember_updatedAt (s : ServiceInstance) (v : JSON) :
    decodeMember s ("updatedAt", v) =
      (decodeTime v s.UpdatedAt).map fun x => { s with UpdatedAt := x } := rfl

theorem decodeEntries_encoded (m : GoMap GoString) : ∀ acc : GoMap GoString,
    decodeEntries (m.map fun kv => (toText kv.1, JSON.str (toText kv.2))) acc =
      .ok (m.foldl (fun a kv => GoMap.set a (wireString kv.1) (wireString kv.2)) acc) := by
  induction m with
  | nil => intro acc; rfl
  | cons p rest ih =>
    intro acc
    simp only [List.map_cons, decodeEntries, List.foldl_cons, ih, wireString]

theorem Time.MarshalJSON_ok (t : Time) (h : t.Marshalable) :
    t.MarshalJSON = .ok (String.mk (Time.format t)) := by
  obtain ⟨hy0, hy1, ho⟩ := h
  have h1 : ¬ (t.year < 0 ∨ 9999 < t.year) := by omega
  have h2 : ¬ (24 ≤ t.offset.natAbs / 60 / 60) := by omega
  simp only [Time.MarshalJSON, if_neg h1, if_neg h2]

theorem decodeTime_format (t old : Time) (hw : t.WellFormed) (hm : t.Marshalable) :
    decodeTime (JSON.str (String.mk (Time.format t))) old = .ok t.wire := by
  simp only [decodeTime, Time.parse_format t hw hm]

theorem ToJSON_ok (s : ServiceInstance) (hm : s.UpdatedAt.Marshalable) :
    s.ToJSON = .ok (some (JSON.obj (
      [("id", JSON.str (toText s.ID)), ("name", JSON.str (toText s.Name)),
       ("version", JSON.str (toText s.Version)), ("host", JSON.str (toText s.Host)),
       ("port", JSON.int s.Port)]
      ++ metadataMember s.Metadata
      ++ [("status", JSON.str (toText s.Status)),
          ("updatedAt", JSON.str (String.mk (Time.format s.UpdatedAt)))]))) := by
  simp only [ServiceInstance.ToJSON, Time.MarshalJSON_ok _ hm]

theorem ToJSON_ok_marshalable (s : ServiceInstance) (data : Bytes) (h : s.ToJSON = .ok data) :
    s.UpdatedAt.Marshalable := by
  unfold ServiceInstance.ToJSON Time.MarshalJSON at h
  by_cases hy : s.UpdatedAt.year < 0 ∨ 9999 < s.UpdatedAt.year
  · rw [if_pos hy] at h
    cases h
  · rw [if_neg hy] at h
    by_cases ho : 24 ≤ s.UpdatedAt.offset.natAbs / 60 / 60
    · rw [if_pos ho] at h
      cases h
    · exact ⟨by omega, by omega, by omega⟩

theorem FromJSON_ToJSON_wire (s : ServiceInstance) (hp : IsGoInt s.Port)
    (hw : s.UpdatedAt.WellFormed) (hm : s.UpdatedAt.Marshalable) :
    ∃ data, s.ToJSON = .ok data ∧ FromJSON data = .ok s.wire := by
  have hto := ToJSON_ok s hm
  obtain ⟨id, name, version, host, port, md, status, t⟩ := s
  simp only at hp hw hm hto
  refine ⟨_, hto, ?_⟩
  rcases md with _ | m
  · simp only [FromJSON, metadataMember, List.cons_append, List.nil_append, List.append_nil,
      decodeMembers,
      decodeMember_id, decodeMember_name, decodeMember_version, decodeMember_host,
      decodeMember_port, decodeMember_status, decodeMember_updatedAt, decodeString, decodeInt,
      if_pos hp, decodeTime_format t _ hw hm, Except.map, ServiceInstance.zero,
      ServiceInstance.wire, wireMap, wireString]
  · cases m with
    | nil =>
      simp only [FromJSON, metadataMember, List.cons_append, List.nil_append, List.append_nil,
        decodeMembers,
        decodeMember_id, decodeMember_name, decodeMember_version, decodeMember_host,
        decodeMember_port, decodeMember_status, decodeMember_updatedAt, decodeString,
        decodeInt, if_pos hp, decodeTime_format t _ hw hm, Except.map, ServiceInstance.zero,
        ServiceInstance.wire, wireMap, wireString]
    | cons e es =>
      simp only [FromJSON, metadataMember, List.cons_append, List.nil_append,
        List.append_nil, decodeMembers,
        decodeMember_id, decodeMember_name, decodeMember_version, decodeMember_host,
        decodeMember_port, decodeMember_status, decodeMember_updatedAt, decodeMember_metadata,
        decodeString, decodeInt, decodeMap, decodeEntries_encoded, Option.getD,
        if_pos hp, decodeTime_format t _ hw hm, Except.map, ServiceInstance.zero,
        ServiceInstance.wire, wireMap, wireString]

theorem foldl_set_wire (m : GoMap GoString)
    (h : ∀ kv ∈ m, ValidUTF8 kv.1 ∧ ValidUTF8 kv.2) : ∀ acc : GoMap GoString,
    m.foldl (fun a kv => GoMap.set a (wireString kv.1) (wireString kv.2)) acc =
      m.foldl (fun a kv => GoMap.set a kv.1 kv.2) acc := by
  induction m with
  | nil => intro acc; rfl
  | cons p rest ih =>
    intro acc
    have hp := h p (List.mem_cons_self _ _)
    simp only [List.foldl_cons, wireString_of_valid _ hp.1, wireString_of_valid _ hp.2]
    exact ih (fun kv hkv => h kv (List.mem_cons_of_mem _ hkv)) _

theorem wireMap_of_valid (md : Option (GoMap GoString)) (ho : mapOrdered md)
    (hv : mapValidUTF8 md) : wireMap md = if mapLen md = 0 then none else md := by
  rcases md with _ | m
  · rfl
  · cases m with
    | nil => rfl
    | cons e es =>
      have h1 := foldl_set_wire (e :: es) (fun kv hkv => hv kv (by simpa using hkv)) []
      have h2 := GoMap.foldl_set_ordered (e :: es) [] (by simpa [mapOrdered] using ho)
      simp only [wireMap, h1, h2, List.nil_append, mapLen, List.length_cons]
      rw [if_neg (by omega)]

theorem instanceWire_of_valid (s : ServiceInstance) (h : s.Valid) :
    s.wire = { s with Metadata := if mapLen s.Metadata = 0 then none else s.Metadata } := by
  obtain ⟨h1, h2, h3, h4, h5, _, ho, hv, ht⟩ := h
  simp only [ServiceInstance.wire, wireString_of_valid _ h1, wireString_of_valid _ h2,
    wireString_of_valid _ h3, wireString_of_valid _ h4, wireString_of_valid _ h5,
    wireMap_of_valid _ ho hv, Time.timeWire_of_valid _ ht]

theorem instanceWire_of_text (s : ServiceInstance) (h1 : ValidUTF8 s.ID) (h2 : ValidUTF8 s.Name)
    (h3 : ValidUTF8 s.Version) (h4 : ValidUTF8 s.Host) (h5 : ValidUTF8 s.Status)
    (ho : s.UpdatedAt.offset % 60 = 0) (hmono : s.UpdatedAt.mono = none) :
    s.wire = { s with Metadata := wireMap s.Metadata } := by
  simp only [ServiceInstance.wire, wireString_of_valid _ h1, wireString_of_valid _ h2,
    wireString_of_valid _ h3, wireString_of_valid _ h4, wireString_of_valid _ h5,
    Time.timeWire_of_whole _ ho hmono]

theorem decodeMember_ID (s x : ServiceInstance) (m : String × JSON)
    (hkey : foldName m.1 ≠ foldName "id") (h : decodeMember s m = .ok x) : x.ID = s.ID := by
  unfold decodeMember at h
  simp only [if_neg hkey] at h
  split at h
  · cases hd : decodeString m.2 s.Name with
    | error e => rw [hd] at h; cases h
    | ok v => rw [hd] at h; injection h with h; rw [← h]
  · split at h
    · cases hd : decodeString m.2 s.Version with
      | error e => rw [hd] at h; cases h
      | ok v => rw [hd] at h; injection h with h; rw [← h]
    · split at h
      · cases hd : decodeString m.2 s.Host with
        | error e => rw [hd] at h; cases h
        | ok v => rw [hd] at h; injection h with h; rw [← h]
      · split at h
        · cases hd : decodeInt m.2 s.Port with
          | error e => rw [hd] at h; cases h
          | ok v => rw [hd] at h; injection h with h; rw [← h]
        · split at h
          · cases hd : decodeMap m.2 s.Metadata with
            | error e => rw [hd] at h; cases h
            | ok v => rw [hd] at h; injection h with h; rw [← h]
          · split at h
            · cases hd : decodeString m.2 s.Status with
              | error e => rw [hd] at h; cases h
              | ok v => rw [hd] at h; injection h with h; rw [← h]
            · split at h
              · cases hd : decodeTime m.2 s.UpdatedAt with
                | error e => rw [hd] at h; cases h
                | ok v => rw [hd] at h; injection h with h; rw [← h]
              · injection h with h
                rw [← h]

theorem decodeMembers_ID (ms : List (String × JSON)) : ∀ (s x : ServiceInstance),
    (∀ m ∈ ms, foldName m.1 ≠ foldName "id") → decodeMembers ms s = .ok x → x.ID = s.ID := by
  induction ms with
  | nil =>
    intro s x _ h
    simp only [decodeMembers] at h
    injection h with h
    rw [h]
  | cons m rest ih =>
    intro s x hk h
    simp only [decodeMembers] at h
    cases hd : decodeMember s m with
    | error e => rw [hd] at h; cases h
    | ok s1 =>
      rw [hd] at h
      rw [ih s1 x (fun m' hm' => hk m' (List.mem_cons_of_mem _ hm')) h]
      exact decodeMember_ID s s1 m (hk m (List.mem_cons_self _ _)) hd

theorem FromJSON_ToJSON_ID (s x : ServiceInstance) (data : Bytes) (hto : s.ToJSON = .ok data)
    (hfrom : FromJSON data = .ok x) : x.ID = wireString s.ID := by
  have hm := ToJSON_ok_marshalable s data hto
  rw [ToJSON_ok s hm] at hto
  injection hto with hto
  subst hto
  change decodeMembers (("id", JSON.str (toText s.ID)) ::
    ([("name", JSON.str (toText s.Name)), ("version", JSON.str (toText s.Version)),
      ("host", JSON.str (toText s.Host)), ("port", JSON.int s.Port)]
      ++ metadataMember s.Metadata
      ++ [("status", JSON.str (toText s.Status)),
          ("updatedAt", JSON.str (String.mk (Time.format s.UpdatedAt)))]))
    ServiceInstance.zero = .ok x at hfrom
  rw [decodeMembers, decodeMember_id] at hfrom
  simp only [decodeString, Except.map] at hfrom
  refine decodeMembers_ID _ _ x ?_ hfrom
  intro m hm'
  have hmd : ∀ m ∈ metadataMember s.Metadata, foldName m.1 ≠ foldName "id" := by
    intro m hm2
    rcases hmeta : s.Metadata with _ | l
    · rw [hmeta] at hm2
      cases hm2
    · rw [hmeta] at hm2
      cases l with
      | nil => cases hm2
      | cons e es =>
        simp only [metadataMember, List.mem_singleton] at hm2
        rw [hm2]
        show foldName "metadata" ≠ foldName "id"
        decide
  simp only [List.mem_cons, List.mem_append, List.not_mem_nil, or_false] at hm'
  rcases hm' with ((rfl | rfl | rfl | rfl) | hm') | rfl | rfl
  · show foldName "name" ≠ foldName "id"
    decide
  · show foldName "version" ≠ foldName "id"
    decide
  · show foldName "host" ≠ foldName "id"
    decide
  · show foldName "port" ≠ foldName "id"
    decide
  · exact hmd m hm'
  · show foldName "status" ≠ foldName "id"
    decide
  · show foldName "updatedAt" ≠ foldName "id"
    decide

namespace GoMap

theorem get_none_of_lt {V : Type} (m : GoMap V) (k : GoString)
    (h : ∀ p ∈ m, k < p.1) : get m k = none := by
  induction m with
  | nil => rfl
  | cons p rest ih =>
    obtain ⟨k0, v0⟩ := p
    have h0 : k < k0 := h (k0, v0) (List.mem_cons_self _ _)
    have hne : k ≠ k0 := by
      intro e
      subst e
      exact lt_irrefl _ h0
    simp only [get, if_neg hne]
    exact ih (fun p hp => h p (List.mem_cons_of_mem _ hp))

theorem Ordered_cons {V : Type} (p : GoString × V) (m : GoMap V) :
    Ordered (p :: m) ↔ (∀ q ∈ m, p.1 < q.1) ∧ Ordered m := by
  unfold Ordered
  rw [List.map_cons, List.pairwise_cons]
  constructor
  · rintro ⟨h1, h2⟩
    exact ⟨fun q hq => h1 q.1 (List.mem_map_of_mem _ hq), h2⟩
  · rintro ⟨h1, h2⟩
    refine ⟨?_, h2⟩
    intro a ha
    obtain ⟨q, hq, rfl⟩ := List.mem_map.1 ha
    exact h1 q hq

theorem mem_set {V : Type} (m : GoMap V) (k : GoString) (v : V) (q : GoString × V)
    (h : q ∈ set m k v) : q = (k, v) ∨ q ∈ m := by
  induction m with
  | nil =>
    simp only [set, List.mem_singleton] at h
    exact Or.inl h
  | cons p rest ih =>
    obtain ⟨k0, v0⟩ := p
    simp only [set] at h
    split at h
    · rcases List.mem_cons.1 h with h | h
      · exact Or.inl h
      · exact Or.inr h
    · split at h
      · rcases List.mem_cons.1 h with h | h
        · exact Or.inl h
        · exact Or.inr (List.mem_cons_of_mem _ h)
      · rcases List.mem_cons.1 h with h | h
        · exact Or.inr (h ▸ List.mem_cons_self _ _)
        · rcases ih h with h | h
          · exact Or.inl h
          · exact Or.inr (List.mem_cons_of_mem _ h)

theorem Ordered_set {V : Type} (m : GoMap V) (k : GoString) (v : V) (h : Ordered m) :
    Ordered (set m k v) := by
  induction m with
  | nil => simp [set, Ordered]
  | cons p rest ih =>
    obtain ⟨k0, v0⟩ := p
    rw [Ordered_cons] at h
    simp only [set]
    split
    · rename_i hlt
      rw [Ordered_cons]
      refine ⟨?_, (Ordered_cons _ _).2 h⟩
      intro q hq
      rcases List.mem_cons.1 hq with hq | hq
      · rw [hq]
        exact hlt
      · exact lt_trans hlt (h.1 q hq)
    · split
      · rename_i hlt heq
        subst heq
        rw [Ordered_cons]
        exact ⟨h.1, h.2⟩
      · rename_i hlt hne
        have hgt : k0 < k := by
          rcases lt_trichotomy k k0 with h1 | h1 | h1
          · exact absurd h1 hlt
          · exact absurd (h1) hne
          · exact h1
        rw [Ordered_cons]
        refine ⟨?_, ih h.2⟩
        intro q hq
        rcases mem_set rest k v q hq with hq | hq
        · rw [hq]
          exact hgt
        · exact h.1 q hq

theorem get_of_mem {V : Type} (m : GoMap V) (h : Ordered m) (k : GoString) (v : V)
    (hm : (k, v) ∈ m) : get m k = some v := by
  induction m with
  | nil => cases hm
  | cons p rest ih =>
    obtain ⟨k0, v0⟩ := p
    rw [Ordered_cons] at h
    rcases List.mem_cons.1 hm with hm | hm
    · injection hm with h1 h2
      subst h1
      subst h2
      simp [get]
    · have hlt : k0 < k := h.1 (k, v) hm
      have hne : k ≠ k0 := by
        intro e
        subst e
        exact lt_irrefl _ hlt
      simp only [get, if_neg hne]
      exact ih h.2 hm

theorem mem_of_get {V : Type} (m : GoMap V) (k : GoString) (v : V)
    (h : get m k = some v) : (k, v) ∈ m := by
  induction m with
  | nil => cases h
  | cons p rest ih =>
    obtain ⟨k0, v0⟩ := p
    simp only [get] at h
    split at h
    · rename_i heq
      subst heq
      injection h with h
      subst h
      exact List.mem_cons_self _ _
    · exact List.mem_cons_of_mem _ (ih h)

end GoMap

namespace GoMap

theorem set_set {V : Type} (m : GoMap V) (k : GoString) (a b : V) :
    set (set m k a) k b = set m k b := by
  induction m with
  | nil => simp [set]
  | cons p rest ih =>
    obtain ⟨k0, v0⟩ := p
    simp only [set]
    split
    · rename_i hlt
      simp [set]
    · split
      · rename_i hlt heq
        subst heq
        simp [set]
      · rename_i hlt hne
        simp only [set, if_neg hlt, if_neg hne, ih]

theorem flatten_set_append {V : Type} (m : GoMap (List V)) (h : Ordered m) (k : GoString) (x : V) :
    List.Perm ((set m k ((get m k).getD [] ++ [x])).map Prod.snd).flatten
      ((m.map Prod.snd).flatten ++ [x]) := by
  induction m with
  | nil => simp [set, get]
  | cons p rest ih =>
    obtain ⟨k0, v0⟩ := p
    rw [Ordered_cons] at h
    simp only [set]
    split
    · rename_i hlt
      have hnone : get ((k0, v0) :: rest) k = none := by
        apply get_none_of_lt
        intro q hq
        rcases List.mem_cons.1 hq with hq | hq
        · rw [hq]
          exact hlt
        · exact lt_trans hlt (h.1 q hq)
      rw [hnone]
      simp only [Option.getD, List.nil_append, List.map_cons, List.flatten_cons]
      exact List.perm_append_comm
    · split
      · rename_i hlt heq
        subst heq
        simp only [get, if_true, Option.getD, List.map_cons, List.flatten_cons,
          List.append_assoc]
        exact List.Perm.append_left _ List.perm_append_comm
      · rename_i hlt hne
        simp only [get, if_neg hne, List.map_cons, List.flatten_cons, List.append_assoc]
        exact List.Perm.append_left _ (ih h.2)

end GoMap

theorem collectInstances_eq (kvs : List KeyValue) : ∀ acc : List ServiceInstance,
    collectInstances kvs acc = acc ++ decodeAll kvs := by
  induction kvs with
  | nil => intro acc; simp [collectInstances, decodeAll]
  | cons kv rest ih =>
    intro acc
    simp only [collectInstances, decodeAll, List.filterMap_cons]
    cases h : FromJSON kv.Value with
    | error e =>
      simp only [Except.toOption]
      rw [ih]
      rfl
    | ok inst =>
      simp only [Except.toOption]
      rw [ih]
      simp only [List.append_assoc, List.singleton_append]
      rfl

theorem groupInstances_cons_ok (kv : KeyValue) (rest : List KeyValue) (inst : ServiceInstance)
    (acc : GoMap (List ServiceInstance)) (h : FromJSON kv.Value = .ok inst) :
    groupInstances (kv :: rest) acc =
      groupInstances rest
        (GoMap.set acc inst.Name ((GoMap.get acc inst.Name).getD [] ++ [inst])) := by
  simp only [groupInstances, h]
  cases hg : GoMap.get acc inst.Name with
  | some l => simp only [hg]
  | none =>
    simp only [GoMap.get_set_self, GoMap.set_set, Option.getD]

theorem groupInstances_cons_error (kv : KeyValue) (rest : List KeyValue) (e : Error)
    (acc : GoMap (List ServiceInstance)) (h : FromJSON kv.Value = .error e) :
    groupInstances (kv :: rest) acc = groupInstances rest acc := by
  simp only [groupInstances, h]

theorem decodeAll_cons_ok (kv : KeyValue) (rest : List KeyValue) (inst : ServiceInstance)
    (h : FromJSON kv.Value = .ok inst) : decodeAll (kv :: rest) = inst :: decodeAll rest := by
  simp [decodeAll, List.filterMap_cons, h, Except.toOption]

theorem decodeAll_cons_error (kv : KeyValue) (rest : List KeyValue) (e : Error)
    (h : FromJSON kv.Value = .error e) : decodeAll (kv :: rest) = decodeAll rest := by
  simp [decodeAll, List.filterMap_cons, h, Except.toOption]

theorem decodeAll_append (xs ys : List KeyValue) :
    decodeAll (xs ++ ys) = decodeAll xs ++ decodeAll ys := by
  simp [decodeAll, List.filterMap_append]

theorem Ordered_groupInstances (kvs : List KeyValue) :
    ∀ acc : GoMap (List ServiceInstance), GoMap.Ordered acc →
      GoMap.Ordered (groupInstances kvs acc) := by
  induction kvs with
  | nil => intro acc h; exact h
  | cons kv rest ih =>
    intro acc h
    cases hd : FromJSON kv.Value with
    | error e =>
      rw [groupInstances_cons_error kv rest e acc hd]
      exact ih acc h
    | ok inst =>
      rw [groupInstances_cons_ok kv rest inst acc hd]
      exact ih _ (GoMap.Ordered_set _ _ _ h)

theorem perm_groupInstances (kvs : List KeyValue) :
    ∀ acc : GoMap (List ServiceInstance), GoMap.Ordered acc →
      List.Perm (allInstances (groupInstances kvs acc)) (allInstances acc ++ decodeAll kvs) := by
  induction kvs with
  | nil => intro acc _; simp [groupInstances, decodeAll]
  | cons kv rest ih =>
    intro acc h
    cases hd : FromJSON kv.Value with
    | error e =>
      rw [groupInstances_cons_error kv rest e acc hd, decodeAll_cons_error kv rest e hd]
      exact ih acc h
    | ok inst =>
      rw [groupInstances_cons_ok kv rest inst acc hd, decodeAll_cons_ok kv rest inst hd]
      refine (ih _ (GoMap.Ordered_set _ _ _ h)).trans ?_
      have := GoMap.flatten_set_append acc h inst.Name inst
      have h2 := List.Perm.append_right (decodeAll rest) this
      simpa [allInstances, List.append_assoc] using h2

theorem get_groupInstances (kvs : List KeyValue) :
    ∀ (acc : GoMap (List ServiceInstance)) (k : GoString),
      GoMap.get (groupInstances kvs acc) k =
        if (decodeAll kvs).filter (fun x => x.Name = k) = [] then GoMap.get acc k
        else some ((GoMap.get acc k).getD [] ++ (decodeAll kvs).filter (fun x => x.Name = k)) := by
  induction kvs with
  | nil => intro acc k; simp [groupInstances, decodeAll]
  | cons kv rest ih =>
    intro acc k
    cases hd : FromJSON kv.Value with
    | error e =>
      rw [groupInstances_cons_error kv rest e acc hd, decodeAll_cons_error kv rest e hd]
      exact ih acc k
    | ok inst =>
      rw [groupInstances_cons_ok kv rest inst acc hd, decodeAll_cons_ok kv rest inst hd, ih,
        GoMap.get_set]
      by_cases hk : k = inst.Name
      · subst hk
        simp only [if_true, List.filter_cons, decide_True, Option.getD, List.append_assoc,
          List.singleton_append]
        split
        · rename_i hf
          simp [hf]
        · simp
      · have hk2 : ¬ inst.Name = k := fun h => hk h.symm
        simp only [if_neg hk, List.filter_cons, hk2, decide_False]
        rfl

/-! ## Discovery: GetService and GetAllServices -/

theorem decodeAll_eq_nil_iff (kvs : List KeyValue) :
    decodeAll kvs = [] ↔ ∀ kv ∈ kvs, ∀ inst, FromJSON kv.Value ≠ .ok inst := by
  induction kvs with
  | nil => simp [decodeAll]
  | cons kv rest ih =>
    cases hd : FromJSON kv.Value with
    | error e =>
      rw [decodeAll_cons_error kv rest e hd, ih]
      constructor
      · intro h kv' hkv'
        rcases List.mem_cons.1 hkv' with h1 | h1
        · subst h1
          intro inst
          rw [hd]
          exact fun h => by cases h
        · exact h kv' h1
      · intro h kv' hkv'
        exact h kv' (List.mem_cons_of_mem _ hkv')
    | ok inst =>
      rw [decodeAll_cons_ok kv rest inst hd]
      constructor
      · intro h
        cases h
      · intro h
        exact absurd hd (h kv (List.mem_cons_self _ _) inst)

theorem GetService_read (sr : ServiceRegistry) (ctx : Context) (name : GoString)
    (kvs : List KeyValue) (hget : (sr.client.Get ctx (servicePrefix name)).1 = .ok kvs) :
    (GetService sr ctx name).1 =
      if decodeAll kvs = [] then .error (notFound name) else .ok (decodeAll kvs) := by
  unfold GetService
  rcases hg : sr.client.Get ctx (servicePrefix name) with ⟨r, c1⟩
  rw [hg] at hget
  simp only at hget
  subst hget
  simp only [collectInstances_eq, List.nil_append, List.length_eq_zero]
  split <;> rfl

theorem Get_ok (c : Etcd) (ctx : Context) (key : GoString) (h : ctx.getErr = none) :
    (c.Get ctx key).1 = .ok (c.kvs.filter (fun kv => key.isPrefixOf kv.Key)) := by
  simp only [Etcd.Get, h]

theorem notFound_ne_transport (name : GoString) (err : Error) :
    notFound name ≠ utf8 "failed to get service instances: " ++ err := by
  intro h
  have h2 := congrArg List.head? h
  have e1 : (notFound name).head? = some 110 := rfl
  have e2 : (utf8 "failed to get service instances: " ++ err).head? = some 102 := rfl
  rw [e1, e2] at h2
  exact absurd h2 (by decide)

/-- C3: when the store read succeeds, `GetService` returns the not-found error
exactly when no record under the service's key range decodes; in every other
case it returns a non-empty list; it never returns an empty list as a success,
and the not-found error differs from every wrapped read failure. -/
theorem GetService_notFound_iff (sr : ServiceRegistry) (ctx : Context) (name : GoString)
    (hread : ctx.getErr = none) :
    ((GetService sr ctx name).1 = .error (notFound name) ↔
      ∀ kv ∈ sr.client.kvs, (servicePrefix name).isPrefixOf kv.Key = true →
        ∀ inst, FromJSON kv.Value ≠ .ok inst) ∧
    ((GetService sr ctx name).1 ≠ .error (notFound name) →
      ∃ l, (GetService sr ctx name).1 = .ok l ∧ l ≠ []) ∧
    (GetService sr ctx name).1 ≠ .ok [] ∧
    (∀ err : Error, notFound name ≠ utf8 "failed to get service instances: " ++ err) := by
  have hres := GetService_read sr ctx name _ (Get_ok sr.client ctx (servicePrefix name) hread)
  have hnil := decodeAll_eq_nil_iff
    (sr.client.kvs.filter (fun kv => (servicePrefix name).isPrefixOf kv.Key))
  refine ⟨?_, ?_, ?_, notFound_ne_transport name⟩
  · rw [hres]
    constructor
    · intro h kv hkv hpre
      split at h
      · rename_i hdec
        exact hnil.1 hdec kv (List.mem_filter.2 ⟨hkv, hpre⟩)
      · cases h
    · intro h
      rw [if_pos]
      exact hnil.2 (fun kv hkv => h kv (List.mem_filter.1 hkv).1 (List.mem_filter.1 hkv).2)
  · intro h
    rw [hres] at h ⊢
    split
    · rename_i hdec
      rw [if_pos hdec] at h
      exact absurd rfl h
    · rename_i hdec
      exact ⟨_, rfl, hdec⟩
  · rw [hres]
    split
    · intro h
      cases h
    · rename_i hdec
      intro h
      injection h with h
      exact hdec h

/-- Instance of C3: a store whose only record of the service is corrupt gives the
not-found error, a store with decodable records gives a non-empty list. -/
theorem GetService_notFound_iff_witness :
    Context.background.getErr = none ∧
    (GetService ⟨sampleStoreCorrupt, []⟩ Context.background (utf8 "hello")).1
      = .error (notFound (utf8 "hello")) ∧
    (∃ l, (GetService ⟨sampleStore, []⟩ Context.background (utf8 "hello")).1 = .ok l ∧ l ≠ []) :=
  ⟨rfl,
   (GetService_notFound_iff ⟨sampleStoreCorrupt, []⟩ Context.background (utf8 "hello") rfl).1.2
     (by
       intro kv hkv hpre inst
       simp only [sampleStoreCorrupt, List.mem_cons, List.mem_singleton, List.not_mem_nil,
         or_false] at hkv
       rcases hkv with rfl | rfl
       · intro h
         cases h
       · exact absurd hpre (by decide)),
   (GetService_notFound_iff ⟨sampleStore, []⟩ Context.background (utf8 "hello") rfl).2.1 (by decide)⟩

theorem groupInstances_append (xs ys : List KeyValue) :
    ∀ acc : GoMap (List ServiceInstance),
      groupInstances (xs ++ ys) acc = groupInstances ys (groupInstances xs acc) := by
  induction xs with
  | nil => intro acc; rfl
  | cons kv rest ih =>
    intro acc
    cases hd : FromJSON kv.Value with
    | error e =>
      rw [List.cons_append, groupInstances_cons_error kv _ e acc hd,
        groupInstances_cons_error kv _ e acc hd, ih]
    | ok inst =>
      rw [List.cons_append, groupInstances_cons_ok kv _ inst acc hd,
        groupInstances_cons_ok kv _ inst acc hd, ih]

theorem FromJSON_error_of_not_ok (data : Bytes) (h : ∀ inst, FromJSON data ≠ .ok inst) :
    ∃ e, FromJSON data = .error e := by
  cases hd : FromJSON data with
  | error e => exact ⟨e, rfl⟩
  | ok inst => exact absurd hd (h inst)

theorem GetAllServices_read (sr : ServiceRegistry) (ctx : Context) (kvs : List KeyValue)
    (hget : (sr.client.Get ctx serviceKeyPrefix).1 = .ok kvs) :
    (GetAllServices sr ctx).1 = .ok (groupInstances kvs []) := by
  unfold GetAllServices
  rcases hg : sr.client.Get ctx serviceKeyPrefix with ⟨r, c1⟩
  rw [hg] at hget
  simp only at hget
  subst hget
  rfl

theorem groupInstances_entry (kvs : List KeyValue) (k : GoString) (l : List ServiceInstance) :
    GoMap.get (groupInstances kvs []) k = some l ↔
      l ≠ [] ∧ l = (decodeAll kvs).filter (fun x => x.Name = k) := by
  rw [get_groupInstances]
  split
  · rename_i hf
    simp only [GoMap.get, hf]
    constructor
    · intro h
      cases h
    · rintro ⟨h1, h2⟩
      exact absurd h2 h1
  · rename_i hf
    simp only [GoMap.get, Option.getD, List.nil_append, Option.some.injEq]
    constructor
    · intro h
      subst h
      exact ⟨hf, rfl⟩
    · rintro ⟨_, h2⟩
      exact h2.symm

/-- C4: `GetService` returns exactly the decodings of the records that
`FromJSON` accepts, in the order of the records; the groups of `GetAllServices`
together hold exactly these decodings, each group in the order of the records;
a record that does not decode, wherever it stands in the sequence, changes
neither loop's result. -/
theorem skip_on_decode_error (sr : ServiceRegistry) (ctx : Context) (name : GoString)
    (kvs all : List KeyValue)
    (hget : (sr.client.Get ctx (servicePrefix name)).1 = .ok kvs)
    (hall : (sr.client.Get ctx serviceKeyPrefix).1 = .ok all) :
    (GetService sr ctx name).1 =
      (if decodeAll kvs = [] then .error (notFound name) else .ok (decodeAll kvs)) ∧
    (∃ groups, (GetAllServices sr ctx).1 = .ok groups ∧
      (allInstances groups).Perm (decodeAll all) ∧
      ∀ k l, (k, l) ∈ groups → l.Sublist (decodeAll all)) ∧
    (∀ pre bad post, (∀ inst, FromJSON bad.Value ≠ .ok inst) →
      decodeAll (pre ++ bad :: post) = decodeAll (pre ++ post) ∧
      collectInstances (pre ++ bad :: post) [] = collectInstances (pre ++ post) [] ∧
      groupInstances (pre ++ bad :: post) [] = groupInstances (pre ++ post) []) := by
  refine ⟨GetService_read sr ctx name kvs hget, ?_, ?_⟩
  · refine ⟨_, GetAllServices_read sr ctx all hall, ?_, ?_⟩
    · have := perm_groupInstances all [] (by simp [GoMap.Ordered])
      simpa [allInstances] using this
    · intro k l hmem
      have hord := Ordered_groupInstances all [] (by simp [GoMap.Ordered])
      have hg := GoMap.get_of_mem _ hord k l hmem
      rw [((groupInstances_entry all k l).1 hg).2]
      exact List.filter_sublist _
  · intro pre bad post hbad
    obtain ⟨e, he⟩ := FromJSON_error_of_not_ok bad.Value hbad
    have h1 : decodeAll (pre ++ bad :: post) = decodeAll (pre ++ post) := by
      rw [decodeAll_append, decodeAll_append, decodeAll_cons_error bad post e he]
    refine ⟨h1, ?_, ?_⟩
    · rw [collectInstances_eq, collectInstances_eq, h1]
    · rw [groupInstances_append, groupInstances_append,
        groupInstances_cons_error bad post e _ he]

/-- Instance of C4: the corrupt record between two records of service hello is
skipped by both operations. -/
theorem skip_on_decode_error_witness :
    (GetService ⟨sampleStore, []⟩ Context.background (utf8 "hello")).1 =
      .ok (decodeAll [⟨utf8 "/services/hello/a1", sampleDoc "a1" "hello", 0⟩,
        ⟨utf8 "/services/hello/a3", sampleDoc "a3" "hello", 0⟩]) ∧
    (∃ groups, (GetAllServices ⟨sampleStore, []⟩ Context.background).1 = .ok groups ∧
      (allInstances groups).Perm (decodeAll sampleStore.kvs)) := by
  have h := skip_on_decode_error ⟨sampleStore, []⟩ Context.background (utf8 "hello")
    [⟨utf8 "/services/hello/a1", sampleDoc "a1" "hello", 0⟩, ⟨utf8 "/services/hello/a2", none, 0⟩,
     ⟨utf8 "/services/hello/a3", sampleDoc "a3" "hello", 0⟩] sampleStore.kvs rfl rfl
  obtain ⟨h1, ⟨groups, h2, h3, _⟩, h4⟩ := h
  have h5 := (h4 [⟨utf8 "/services/hello/a1", sampleDoc "a1" "hello", 0⟩] ⟨utf8 "/services/hello/a2", none, 0⟩
    [⟨utf8 "/services/hello/a3", sampleDoc "a3" "hello", 0⟩] (fun inst hc => by cases hc)).1
  refine ⟨?_, groups, h2, h3⟩
  rw [h1]
  simp only [List.singleton_append] at h5
  rw [h5]
  rfl

/-- C5: when the store read succeeds, `GetAllServices` returns a map in which
the list under each key is exactly the decoded instances of that name, in the
order of the records; an instance never stands under another name; no key maps
to an empty list; and when no record decodes the map is empty, without error. -/
theorem GetAllServices_groups_by_name (sr : ServiceRegistry) (ctx : Context)
    (hread : ctx.getErr = none) :
    ∃ groups, (GetAllServices sr ctx).1 = .ok groups ∧
      (∀ k l, GoMap.get groups k = some l ↔
        l ≠ [] ∧ l = (decodeAll (sr.client.kvs.filter
          (fun kv => serviceKeyPrefix.isPrefixOf kv.Key))).filter
            (fun x => x.Name = k)) ∧
      (∀ k l, (k, l) ∈ groups ↔ GoMap.get groups k = some l) ∧
      (∀ k l, (k, l) ∈ groups → ∀ x ∈ l, x.Name = k) ∧
      (decodeAll (sr.client.kvs.filter
          (fun kv => serviceKeyPrefix.isPrefixOf kv.Key)) = [] → groups = []) := by
  have hget := Get_ok sr.client ctx serviceKeyPrefix hread
  have hord := Ordered_groupInstances
    (sr.client.kvs.filter (fun kv => serviceKeyPrefix.isPrefixOf kv.Key)) []
    (by simp [GoMap.Ordered])
  refine ⟨_, GetAllServices_read sr ctx _ hget, ?_, ?_, ?_, ?_⟩
  · intro k l
    exact groupInstances_entry _ k l
  · intro k l
    exact ⟨GoMap.get_of_mem _ hord k l, GoMap.mem_of_get _ k l⟩
  · intro k l hmem x hx
    have hg := GoMap.get_of_mem _ hord k l hmem
    rw [((groupInstances_entry _ k l).1 hg).2] at hx
    simpa using (List.mem_filter.1 hx).2
  · intro hnil
    cases hgr : groupInstances
      (sr.client.kvs.filter (fun kv => serviceKeyPrefix.isPrefixOf kv.Key)) [] with
    | nil => rfl
    | cons p rest =>
      obtain ⟨k, l⟩ := p
      have hmem : (k, l) ∈ groupInstances
          (sr.client.kvs.filter (fun kv => serviceKeyPrefix.isPrefixOf kv.Key)) [] := by
        rw [hgr]
        exact List.mem_cons_self _ _
      have hg := GoMap.get_of_mem _ hord k l hmem
      have h2 := (groupInstances_entry _ k l).1 hg
      rw [hnil] at h2
      exact absurd h2.2 h2.1

/-- Instance of C5 on the sample store. -/
theorem GetAllServices_groups_by_name_witness :
    Context.background.getErr = none ∧
    ∃ groups, (GetAllServices ⟨sampleStore, []⟩ Context.background).1 = .ok groups ∧
      (∀ k l, (k, l) ∈ groups → ∀ x ∈ l, x.Name = k) ∧
      GoMap.get groups (utf8 "world") = some (decodeAll [⟨utf8 "/services/world/b1", sampleDoc "b1" "world", 0⟩]) := by
  obtain ⟨groups, h1, h2, _, h4, _⟩ :=
    GetAllServices_groups_by_name ⟨sampleStore, []⟩ Context.background rfl
  refine ⟨rfl, groups, h1, h4, ?_⟩
  rw [h2]
  decide

/-! ## Key namespace -/

theorem split_at_slash (a : List Nat) : ∀ (b x y : List Nat), 47 ∉ a → 47 ∉ b →
    a ++ 47 :: x = b ++ 47 :: y → a = b ∧ x = y := by
  induction a with
  | nil =>
    intro b x y _ hb h
    cases b with
    | nil =>
      simp only [List.nil_append, List.cons.injEq, true_and] at h
      exact ⟨rfl, h⟩
    | cons c cs =>
      simp only [List.nil_append, List.cons_append, List.cons.injEq] at h
      exact absurd (h.1 ▸ List.mem_cons_self _ _) hb
  | cons c cs ih =>
    intro b x y ha hb h
    cases b with
    | nil =>
      simp only [List.nil_append, List.cons_append, List.cons.injEq] at h
      exact absurd (h.1 ▸ List.mem_cons_self _ _) ha
    | cons d ds =>
      simp only [List.cons_append, List.cons.injEq] at h
      obtain ⟨h1, h2⟩ := ih ds x y (fun hc => ha (List.mem_cons_of_mem _ hc))
        (fun hc => hb (List.mem_cons_of_mem _ hc)) h.2
      exact ⟨by rw [h.1, h1], h2⟩

theorem serviceKey_bytes (n i : GoString) :
    serviceKey n i = serviceKeyPrefix ++ (n ++ 47 :: i) := by
  have e : utf8 "/" = [47] := rfl
  simp only [serviceKey, e, List.append_assoc, List.singleton_append]

theorem servicePrefix_bytes (n : GoString) :
    servicePrefix n = serviceKeyPrefix ++ (n ++ [47]) := by
  have e : utf8 "/" = [47] := rfl
  simp only [servicePrefix, e, List.append_assoc]

theorem servicePrefix_isPrefixOf_serviceKey (n i : GoString) :
    (servicePrefix n).isPrefixOf (serviceKey n i) = true := by
  rw [List.isPrefixOf_iff_prefix, servicePrefix_bytes, serviceKey_bytes]
  exact ⟨i, by simp [List.append_assoc]⟩

/-- C9, as stated, fails: two different (name, id) pairs share a key, and the
key of an instance of service `a/b` lies in the key range of service `a`. -/
theorem serviceKey_not_injective :
    ¬ (∀ n1 i1 n2 i2 : GoString, serviceKey n1 i1 = serviceKey n2 i2 → n1 = n2 ∧ i1 = i2) ∧
    ¬ (∀ n n2 i2 : GoString,
        (servicePrefix n).isPrefixOf (serviceKey n2 i2) = true → n2 = n) := by
  constructor
  · intro h
    exact absurd (h (utf8 "a/b") (utf8 "c") (utf8 "a") (utf8 "b/c") (by decide)).1 (by decide)
  · intro h
    exact absurd (h (utf8 "a") (utf8 "a/b") (utf8 "c") (by decide)) (by decide)

/-- C9, amended: on service names without a slash, `serviceKey` determines the
name and the id, every key of service `n` lies in the key range that
`GetService(n)` and `Watch(n)` use, and a key of a service lies in the key range
of `n` only if that service is `n`. -/
theorem serviceKey_injective (n1 i1 n2 i2 : GoString)
    (h1 : '/'.toNat ∉ n1) (h2 : '/'.toNat ∉ n2) :
    (serviceKey n1 i1 = serviceKey n2 i2 → n1 = n2 ∧ i1 = i2) ∧
    (servicePrefix n1).isPrefixOf (serviceKey n1 i1) = true ∧
    ((servicePrefix n1).isPrefixOf (serviceKey n2 i2) = true → n2 = n1) := by
  have e : '/'.toNat = 47 := rfl
  rw [e] at h1 h2
  refine ⟨?_, servicePrefix_isPrefixOf_serviceKey n1 i1, ?_⟩
  · intro h
    rw [serviceKey_bytes, serviceKey_bytes] at h
    exact split_at_slash _ _ _ _ h1 h2 (List.append_cancel_left h)
  · intro h
    rw [List.isPrefixOf_iff_prefix, servicePrefix_bytes, serviceKey_bytes] at h
    obtain ⟨t, ht⟩ := h
    rw [List.append_assoc] at ht
    have ht2 := List.append_cancel_left ht
    rw [List.append_assoc] at ht2
    obtain ⟨ha, _⟩ := split_at_slash _ _ _ _ h1 h2 ht2
    exact ha.symm

/-- Instance of C9, amended, on two names without a slash. -/
theorem serviceKey_injective_witness :
    '/'.toNat ∉ utf8 "hello" ∧ '/'.toNat ∉ utf8 "world" ∧
    (serviceKey (utf8 "hello") (utf8 "a1") = serviceKey (utf8 "world") (utf8 "b1") →
      utf8 "hello" = utf8 "world" ∧ utf8 "a1" = utf8 "b1") ∧
    (servicePrefix (utf8 "hello")).isPrefixOf (serviceKey (utf8 "hello") (utf8 "a1")) = true :=
  ⟨by decide, by decide,
   (serviceKey_injective (utf8 "hello") (utf8 "a1") (utf8 "world") (utf8 "b1")
     (by decide) (by decide)).1,
   (serviceKey_injective (utf8 "hello") (utf8 "a1") (utf8 "world") (utf8 "b1")
     (by decide) (by decide)).2.1⟩

/-! ## Round trip of the record encoding -/

theorem sampleInstance_valid : sampleInstance.Valid := by
  refine ⟨⟨_, rfl⟩, ⟨_, rfl⟩, ⟨_, rfl⟩, ⟨_, rfl⟩, ⟨_, rfl⟩, by decide, by decide, ?_, by decide⟩
  intro kv hkv
  simp only [sampleInstance, Option.getD, List.mem_cons, List.mem_singleton, List.not_mem_nil,
    or_false] at hkv
  rcases hkv with rfl | rfl
  · exact ⟨⟨_, rfl⟩, ⟨_, rfl⟩⟩
  · exact ⟨⟨_, rfl⟩, ⟨_, rfl⟩⟩

theorem sampleInstanceEmptyMetadata_valid : sampleInstanceEmptyMetadata.Valid := by
  refine ⟨⟨_, rfl⟩, ⟨_, rfl⟩, ⟨_, rfl⟩, ⟨_, rfl⟩, ⟨_, rfl⟩, by decide, by decide, ?_, by decide⟩
  intro kv hkv
  cases hkv

/-- C2, as stated, fails. An instance whose metadata is an allocated, empty map
is valid, encodes and decodes without error, and comes back with the nil map.
The round trip also changes an instance whose name is not valid UTF-8 (the byte
0xFF comes back as the three bytes of U+FFFD), one whose zone offset is not a
whole number of minutes (3601 seconds come back as 3600), and one whose
timestamp carries a monotonic clock reading, as every value of `time.Now()`
does (the reading is dropped). -/
theorem roundtrip_not_identity :
    (sampleInstanceEmptyMetadata.Valid ∧
      sampleInstanceEmptyMetadata.ToJSON.bind FromJSON =
        .ok { sampleInstanceEmptyMetadata with Metadata := none } ∧
      sampleInstanceEmptyMetadata.ToJSON.bind FromJSON ≠ .ok sampleInstanceEmptyMetadata) ∧
    (sampleInstanceInvalidName.ToJSON.bind FromJSON =
        .ok { sampleInstanceInvalidName with Name := [0xEF, 0xBF, 0xBD] } ∧
      sampleInstanceInvalidName.ToJSON.bind FromJSON ≠ .ok sampleInstanceInvalidName) ∧
    (sampleInstanceOffsetSeconds.ToJSON.bind FromJSON =
        .ok { sampleInstanceOffsetSeconds with
          UpdatedAt := { sampleTimeOffsetSeconds with offset := 3600 } } ∧
      sampleInstanceOffsetSeconds.ToJSON.bind FromJSON ≠ .ok sampleInstanceOffsetSeconds) ∧
    (sampleInstanceNow.ToJSON.bind FromJSON =
        .ok { sampleInstanceNow with UpdatedAt := { sampleNow with mono := none } } ∧
      sampleInstanceNow.ToJSON.bind FromJSON ≠ .ok sampleInstanceNow) :=
  ⟨⟨sampleInstanceEmptyMetadata_valid, by decide, by decide⟩, ⟨by decide, by decide⟩,
    ⟨by decide, by decide⟩, ⟨by decide, by decide⟩⟩

/-- C2, amended: for every instance whose strings are valid UTF-8, whose port
is a Go `int`, and whose timestamp is a real date in the years 0 to 9999 with a
zone offset of whole minutes below 24 hours and without a monotonic clock
reading, `ToJSON` succeeds and `FromJSON` of its result succeeds with an
instance equal in id, name, version, host, port, status and updatedAt, and in
metadata whenever the metadata is nil or has an entry; a metadata map without
entries comes back as the nil map. -/
theorem FromJSON_ToJSON (s : ServiceInstance) (h : s.Valid) :
    ∃ data, s.ToJSON = .ok data ∧ FromJSON data = .ok s.wire ∧
      s.wire.ID = s.ID ∧ s.wire.Name = s.Name ∧ s.wire.Version = s.Version ∧
      s.wire.Host = s.Host ∧ s.wire.Port = s.Port ∧ s.wire.Status = s.Status ∧
      s.wire.UpdatedAt = s.UpdatedAt ∧
      (s.Metadata ≠ some [] → s.wire = s) ∧
      (s.Metadata = some [] → s.wire.Metadata = none) := by
  have hwire := instanceWire_of_valid s h
  obtain ⟨_, _, _, _, _, hp, _, _, ht⟩ := h
  obtain ⟨data, h1, h2⟩ := FromJSON_ToJSON_wire s hp ht.1 ht.2.1
  refine ⟨data, h1, h2, ?_, ?_, ?_, ?_, ?_, ?_, ?_, ?_, ?_⟩
  · rw [hwire]
  · rw [hwire]
  · rw [hwire]
  · rw [hwire]
  · rw [hwire]
  · rw [hwire]
  · rw [hwire]
  · intro hne
    rw [hwire]
    obtain ⟨id, name, version, host, port, md0, status, t⟩ := s
    rcases md0 with _ | m
    · rfl
    · cases m with
      | nil => exact absurd rfl hne
      | cons e es => rfl
  · intro he
    rw [hwire]
    simp [he, mapLen]

/-- Instance of C2, amended: an instance with two metadata entries comes back
unchanged. -/
theorem FromJSON_ToJSON_witness :
    sampleInstance.Valid ∧
    ∃ data, sampleInstance.ToJSON = .ok data ∧ FromJSON data = .ok sampleInstance := by
  obtain ⟨data, h1, h2, _, _, _, _, _, _, _, h3, _⟩ :=
    FromJSON_ToJSON sampleInstance sampleInstance_valid
  refine ⟨sampleInstance_valid, data, h1, ?_⟩
  rw [h2, h3 (by decide)]


/-! ## Failure paths of Register and Deregister -/

theorem Revoke_error_state (c : Etcd) (ctx : Context) (lease : LeaseID) (err : Error)
    (h : (c.Revoke ctx lease).1 = .error err) :
    (c.Revoke ctx lease).2 = { c with calls := c.calls ++ [Call.revoke lease] } := by
  unfold Etcd.Revoke at h ⊢
  cases hr : ctx.revokeErr with
  | some e => rfl
  | none =>
    simp only [hr] at h ⊢
    split
    · rename_i hlive
      rw [if_pos hlive] at h
      cases h
    · rfl

theorem Register_grant_failure (sr : ServiceRegistry) (ctx : Context) (id : UUID) (now : Time)
    (req : RegisterRequest) (err : Error) (h : ctx.grantErr = some err) :
    (Register sr ctx id now req).1 = .error (utf8 "failed to create lease: " ++ err) ∧
    (Register sr ctx id now req).2.leases = sr.leases := by
  simp only [Register, Etcd.Grant, h, and_self]

theorem Register_late_failure (sr : ServiceRegistry) (ctx : Context) (id : UUID) (now : Time)
    (req : RegisterRequest) (err : Error) (data : Bytes)
    (hgrant : ctx.grantErr = none) (hput : ctx.putErr = some err)
    (hdata : ServiceInstance.ToJSON ⟨id.string, req.Name, req.Version, req.Host, req.Port,
      req.Metadata, utf8 "UP", now⟩ = .ok data) :
    (Register sr ctx id now req).1 = .error (utf8 "failed to register service: " ++ err) ∧
    (Register sr ctx id now req).2.leases = GoMap.set sr.leases id.string sr.client.nextLease := by
  simp only [Register, Etcd.Grant, hgrant, hdata, Etcd.Put, hput, and_self]

/-- C1, refuted on the code: when the lease is granted and the store write then
fails, and likewise when the instance cannot be serialized, `Register` returns
an error and the Lease Tracker, empty before the call, holds an entry for the
new instance id afterwards. -/
theorem Register_failure_leaves_tracker_entry :
    sampleRegistry.leases = [] ∧
    (Register sampleRegistry sampleContextPutFails sampleUUID1 sampleTime sampleRequest).1 =
      .error (utf8 "failed to register service: context deadline exceeded") ∧
    (Register sampleRegistry sampleContextPutFails sampleUUID1 sampleTime sampleRequest).2.leases =
      [(sampleUUID1.string, 1)] ∧
    (Register sampleRegistry Context.background sampleUUID1 sampleTimeYear10000
        sampleRequest).1 =
      .error (utf8 ("failed to marshal service data: json: error calling MarshalJSON for type " ++
        "time.Time: Time.MarshalJSON: year outside of range [0,9999]")) ∧
    (Register sampleRegistry Context.background sampleUUID1 sampleTimeYear10000
        sampleRequest).2.leases = [(sampleUUID1.string, 1)] := by
  decide!

/-- C8: when the Lease Tracker has an entry for the instance id and the revoke
of that lease fails, `Deregister` returns the wrapped error, the revoke is the
only call it issues (the delete is not attempted), and the Lease Tracker, the
records and the leases of the store are as before. -/
theorem Deregister_revoke_failure (sr : ServiceRegistry) (ctx : Context)
    (serviceName instanceID : GoString) (leaseID : LeaseID) (err : Error)
    (htracked : GoMap.get sr.leases instanceID = some leaseID)
    (hfail : (sr.client.Revoke ctx leaseID).1 = .error err) :
    (Deregister sr ctx serviceName instanceID).1 = .error (utf8 "failed to revoke lease: " ++ err) ∧
    (Deregister sr ctx serviceName instanceID).2.client.calls =
      sr.client.calls ++ [Call.revoke leaseID] ∧
    (Deregister sr ctx serviceName instanceID).2.leases = sr.leases ∧
    (Deregister sr ctx serviceName instanceID).2.client.kvs = sr.client.kvs ∧
    (Deregister sr ctx serviceName instanceID).2.client.leases = sr.client.leases := by
  have hstate := Revoke_error_state sr.client ctx leaseID err hfail
  unfold Deregister
  rw [htracked]
  simp only
  rcases hr : sr.client.Revoke ctx leaseID with ⟨r, c1⟩
  rw [hr] at hfail hstate
  simp only at hfail hstate
  subst hfail
  subst hstate
  simp only [and_self]

/-- Instance of C8: the revoke of a tracked lease fails. -/
theorem Deregister_revoke_failure_witness :
    GoMap.get
      (Register sampleRegistry Context.background sampleUUID1 sampleTime sampleRequest).2.leases
      sampleUUID1.string = some 1 ∧
    (Deregister
      (Register sampleRegistry Context.background sampleUUID1 sampleTime sampleRequest).2
      sampleContextRevokeFails (utf8 "hello") sampleUUID1.string).1 =
        .error (utf8 "failed to revoke lease: context deadline exceeded") ∧
    (Deregister
      (Register sampleRegistry Context.background sampleUUID1 sampleTime sampleRequest).2
      sampleContextRevokeFails (utf8 "hello") sampleUUID1.string).2.leases =
        [(sampleUUID1.string, 1)] := by
  have h := Deregister_revoke_failure
    (Register sampleRegistry Context.background sampleUUID1 sampleTime sampleRequest).2
    sampleContextRevokeFails (utf8 "hello") sampleUUID1.string 1 (utf8 "context deadline exceeded")
    (by decide) (by decide)
  exact ⟨by decide, h.1, h.2.2.1⟩

/-! ## Store and registration lemmas -/

theorem mem_insertKV_self (kvs : List KeyValue) (kv : KeyValue) :
    kv ∈ Etcd.insertKV kvs kv := by
  induction kvs with
  | nil => simp [Etcd.insertKV]
  | cons kv0 rest ih =>
    simp only [Etcd.insertKV]
    split
    · exact List.mem_cons_self _ _
    · split
      · exact List.mem_cons_self _ _
      · exact List.mem_cons_of_mem _ ih

theorem mem_insertKV (kvs : List KeyValue) (kv kv' : KeyValue)
    (h : kv' ∈ Etcd.insertKV kvs kv) : kv' = kv ∨ kv' ∈ kvs := by
  induction kvs with
  | nil =>
    simp only [Etcd.insertKV, List.mem_singleton] at h
    exact Or.inl h
  | cons kv0 rest ih =>
    simp only [Etcd.insertKV] at h
    split at h
    · rcases List.mem_cons.1 h with h | h
      · exact Or.inl h
      · exact Or.inr h
    · split at h
      · rcases List.mem_cons.1 h with h | h
        · exact Or.inl h
        · exact Or.inr (List.mem_cons_of_mem _ h)
      · rcases List.mem_cons.1 h with h | h
        · exact Or.inr (h ▸ List.mem_cons_self _ _)
        · rcases ih h with h | h
          · exact Or.inl h
          · exact Or.inr (List.mem_cons_of_mem _ h)

theorem insertKV_split (kvs : List KeyValue) (kv : KeyValue) :
    ∃ pre post, Etcd.insertKV kvs kv = pre ++ kv :: post ∧
      (∀ k ∈ pre, k ∈ kvs) ∧ (∀ k ∈ post, k ∈ kvs) := by
  induction kvs with
  | nil => exact ⟨[], [], rfl, fun k hk => (by cases hk), fun k hk => (by cases hk)⟩
  | cons kv0 rest ih =>
    simp only [Etcd.insertKV]
    split
    · exact ⟨[], kv0 :: rest, rfl, fun k hk => (by cases hk), fun k hk => hk⟩
    · split
      · exact ⟨[], rest, rfl, fun k hk => (by cases hk),
          fun k hk => List.mem_cons_of_mem _ hk⟩
      · obtain ⟨pre, post, h1, h2, h3⟩ := ih
        refine ⟨kv0 :: pre, post, by rw [h1]; rfl, ?_, fun k hk => List.mem_cons_of_mem _ (h3 k hk)⟩
        intro k hk
        rcases List.mem_cons.1 hk with hk | hk
        · rw [hk]
          exact List.mem_cons_self _ _
        · exact List.mem_cons_of_mem _ (h2 k hk)

theorem mem_decodeAll (kvs : List KeyValue) (kv : KeyValue) (x : ServiceInstance)
    (hmem : kv ∈ kvs) (hdec : FromJSON kv.Value = .ok x) : x ∈ decodeAll kvs := by
  unfold decodeAll
  rw [List.mem_filterMap]
  exact ⟨kv, hmem, by rw [hdec]; rfl⟩

theorem of_mem_decodeAll (kvs : List KeyValue) (x : ServiceInstance)
    (h : x ∈ decodeAll kvs) : ∃ kv ∈ kvs, FromJSON kv.Value = .ok x := by
  unfold decodeAll at h
  rw [List.mem_filterMap] at h
  obtain ⟨kv, hmem, hdec⟩ := h
  refine ⟨kv, hmem, ?_⟩
  cases hd : FromJSON kv.Value with
  | error e =>
    rw [hd] at hdec
    cases hdec
  | ok y =>
    rw [hd] at hdec
    simp only [Except.toOption, Option.some.injEq] at hdec
    rw [hdec]

theorem Register_ok (sr : ServiceRegistry) (ctx : Context) (id : UUID) (now : Time)
    (req : RegisterRequest) (data : Bytes)
    (hgrant : ctx.grantErr = none) (hput : ctx.putErr = none)
    (hdata : ServiceInstance.ToJSON ⟨id.string, req.Name, req.Version, req.Host, req.Port,
      req.Metadata, utf8 "UP", now⟩ = .ok data) :
    Register sr ctx id now req =
      (.ok ⟨id.string, req.Name, req.Version, req.Host, req.Port, req.Metadata, utf8 "UP", now⟩,
       { client :=
          { kvs := Etcd.insertKV sr.client.kvs
              ⟨serviceKey req.Name id.string, data, sr.client.nextLease⟩,
            leases := sr.client.leases ++ [(sr.client.nextLease, defaultTTL)],
            nextLease := sr.client.nextLease + 1,
            calls := sr.client.calls ++ [Call.grant defaultTTL,
              Call.put (serviceKey req.Name id.string) data sr.client.nextLease] },
         leases := GoMap.set sr.leases id.string sr.client.nextLease }) := by
  simp only [Register, Etcd.Grant, hgrant, hdata, Etcd.Put, hput, List.any_append,
    List.any_cons, List.any_nil, decide_True, Bool.or_false, Bool.or_true, if_true,
    List.append_assoc, List.singleton_append]


/-! ## Stores populated by Register -/

theorem Register_kvs (sr : ServiceRegistry) (ctx : Context) (id : UUID) (now : Time)
    (req : RegisterRequest) (kv : KeyValue)
    (h : kv ∈ (Register sr ctx id now req).2.client.kvs) :
    kv ∈ sr.client.kvs ∨
      ∃ data, ServiceInstance.ToJSON ⟨id.string, req.Name, req.Version, req.Host, req.Port,
        req.Metadata, utf8 "UP", now⟩ = .ok data ∧
        kv = ⟨serviceKey req.Name id.string, data, sr.client.nextLease⟩ := by
  unfold Register Etcd.Grant at h
  cases hg : ctx.grantErr with
  | some e =>
    simp only [hg] at h
    exact Or.inl h
  | none =>
    simp only [hg] at h
    cases hd : ServiceInstance.ToJSON ⟨id.string, req.Name, req.Version, req.Host, req.Port,
        req.Metadata, utf8 "UP", now⟩ with
    | error e =>
      simp only [hd] at h
      exact Or.inl h
    | ok data =>
      simp only [hd, Etcd.Put] at h
      cases hp : ctx.putErr with
      | some e =>
        simp only [hp] at h
        exact Or.inl h
      | none =>
        simp only [hp, List.any_append, List.any_cons, List.any_nil, decide_True, Bool.or_false,
          Bool.or_true, if_true] at h
        rcases mem_insertKV _ _ _ h with h | h
        · exact Or.inr ⟨data, rfl, h⟩
        · exact Or.inl h

theorem deleteKey_kvs (sr : ServiceRegistry) (ctx : Context) (serviceName instanceID : GoString)
    (kv : KeyValue) (h : kv ∈ (deleteKey sr ctx serviceName instanceID).2.client.kvs) :
    kv ∈ sr.client.kvs ∧
      ((deleteKey sr ctx serviceName instanceID).1 = .ok () →
        kv.Key ≠ serviceKey serviceName instanceID) := by
  unfold deleteKey Etcd.Delete at h ⊢
  cases hd : ctx.deleteErr with
  | some e =>
    simp only [hd] at h ⊢
    exact ⟨h, fun hc => by cases hc⟩
  | none =>
    simp only [hd] at h ⊢
    have h2 := List.mem_filter.1 h
    exact ⟨h2.1, fun _ => by simpa using h2.2⟩

theorem Deregister_kvs (sr : ServiceRegistry) (ctx : Context) (serviceName instanceID : GoString)
    (kv : KeyValue) (h : kv ∈ (Deregister sr ctx serviceName instanceID).2.client.kvs) :
    kv ∈ sr.client.kvs ∧
      ((Deregister sr ctx serviceName instanceID).1 = .ok () →
        kv.Key ≠ serviceKey serviceName instanceID) := by
  unfold Deregister at h ⊢
  cases hl : GoMap.get sr.leases instanceID with
  | none =>
    simp only [hl] at h ⊢
    exact deleteKey_kvs sr ctx serviceName instanceID kv h
  | some leaseID =>
    simp only [hl] at h ⊢
    cases hr : ctx.revokeErr with
    | some e =>
      simp only [Etcd.Revoke, hr] at h ⊢
      exact ⟨h, fun hc => by cases hc⟩
    | none =>
      by_cases hlive : sr.client.leases.any (fun l => l.1 = leaseID) = true
      · simp only [Etcd.Revoke, hr, hlive, if_true] at h ⊢
        have h2 := deleteKey_kvs _ ctx serviceName instanceID kv h
        exact ⟨(List.mem_filter.1 h2.1).1, h2.2⟩
      · simp only [Etcd.Revoke, hr, hlive] at h ⊢
        exact ⟨h, fun hc => by cases hc⟩

theorem GetService_kvs (sr : ServiceRegistry) (ctx : Context) (name : GoString) :
    (GetService sr ctx name).2.client.kvs = sr.client.kvs := by
  unfold GetService Etcd.Get
  cases ctx.getErr with
  | some e => rfl
  | none =>
    simp only
    split <;> rfl

theorem GetAllServices_kvs (sr : ServiceRegistry) (ctx : Context) :
    (GetAllServices sr ctx).2.client.kvs = sr.client.kvs := by
  unfold GetAllServices Etcd.Get
  cases ctx.getErr with
  | some e => rfl
  | none => rfl

theorem Populated_records {sr : ServiceRegistry} {regs : List (GoString × UUID)}
    (h : Populated sr regs) :
    (∀ kv ∈ sr.client.kvs, ∃ p ∈ regs, kv.Key = serviceKey p.1 p.2.string ∧
      ∀ x, FromJSON kv.Value = .ok x → x.ID = p.2.string) ∧
    (∀ p ∈ regs, ∀ q ∈ regs, p.2 = q.2 → p.1 = q.1) := by
  induction h with
  | init =>
    constructor
    · intro kv hkv
      cases hkv
    · intro p hp
      cases hp
  | @register sr regs ctx id now req _ hfresh ih =>
    constructor
    · intro kv hkv
      rcases Register_kvs sr ctx id now req kv hkv with hold | ⟨data, hdata, hnew⟩
      · obtain ⟨p, h1, h2, h3⟩ := ih.1 kv hold
        exact ⟨p, List.mem_cons_of_mem _ h1, h2, h3⟩
      · subst hnew
        refine ⟨(req.Name, id), List.mem_cons_self _ _, rfl, ?_⟩
        intro x hx
        have := FromJSON_ToJSON_ID _ x data hdata hx
        rw [this]
        exact wireString_of_valid _ (UUID.string_valid id)
    · intro p hp q hq hpq
      rcases List.mem_cons.1 hp with hp | hp
      · rcases List.mem_cons.1 hq with hq | hq
        · rw [hp, hq]
        · subst hp
          exact absurd hpq.symm (hfresh q hq)
      · rcases List.mem_cons.1 hq with hq | hq
        · subst hq
          exact absurd hpq (hfresh p hp)
        · exact ih.2 p hp q hq hpq
  | @deregister sr regs ctx serviceName instanceID _ ih =>
    exact ⟨fun kv hkv => ih.1 kv (Deregister_kvs sr ctx serviceName instanceID kv hkv).1, ih.2⟩
  | @getService sr regs ctx name _ ih =>
    refine ⟨fun kv hkv => ih.1 kv ?_, ih.2⟩
    rw [GetService_kvs] at hkv
    exact hkv
  | @getAllServices sr regs ctx _ ih =>
    refine ⟨fun kv hkv => ih.1 kv ?_, ih.2⟩
    rw [GetAllServices_kvs] at hkv
    exact hkv
  | @watch sr regs serviceName _ ih => exact ih
  | @expire sr regs lease _ ih =>
    exact ⟨fun kv hkv => ih.1 kv (List.mem_filter.1 hkv).1, ih.2⟩
  | @restart sr regs _ ih => exact ih

/-! ## Deregistration -/

theorem filter_ID_decodeAll (kvs : List KeyValue) (i : GoString)
    (h : ∀ kv ∈ kvs, ∀ x, FromJSON kv.Value = .ok x → x.ID ≠ i) :
    (decodeAll kvs).filter (fun x => decide (x.ID = i)) = [] := by
  rw [List.filter_eq_nil_iff]
  intro x hx
  obtain ⟨kv, hkv, hd⟩ := of_mem_decodeAll kvs x hx
  simpa using h kv hkv x hd

/-- C6: when grant and put succeed, `Register` returns an instance whose id is
the string of the UUID drawn for the call, which is not empty and is the string
of no other UUID, with status UP and the request's name, version, host, port
and metadata; afterwards the store holds the encoding of that instance at the
instance key, attached to the lease granted with TTL 30, the Lease Tracker maps
the id to that lease, and `GetService` of the name returns a list that contains
the instance as the store holds it, under the same id (equal to the returned
instance up to the metadata when name, version and host are valid UTF-8 and the
timestamp has a zone offset of whole minutes and no monotonic clock reading),
and only it when the store had no records before. The id is fresh: when the store has been populated
by `Register` calls and the UUID drawn differs from the UUIDs drawn before, no
earlier registration and no record of the store before the call carries the id,
and exactly one instance of the returned list carries it. -/
theorem Register_success (sr : ServiceRegistry) (ctx ctx' : Context) (id : UUID) (now : Time)
    (req : RegisterRequest)
    (hgrant : ctx.grantErr = none) (hput : ctx.putErr = none) (hread : ctx'.getErr = none)
    (hnow : now.WellFormed) (hmar : now.Marshalable) (hport : IsGoInt req.Port) :
    ∃ inst data l,
      (Register sr ctx id now req).1 = .ok inst ∧
      inst.ID = id.string ∧ inst.ID ≠ [] ∧ (∀ id2 : UUID, id2.string = inst.ID → id2 = id) ∧
      inst.Status = utf8 "UP" ∧
      inst.Name = req.Name ∧ inst.Version = req.Version ∧ inst.Host = req.Host ∧
      inst.Port = req.Port ∧ inst.Metadata = req.Metadata ∧ inst.UpdatedAt = now ∧
      inst.ToJSON = .ok data ∧
      (⟨serviceKey req.Name inst.ID, data, sr.client.nextLease⟩ : KeyValue) ∈
        (Register sr ctx id now req).2.client.kvs ∧
      (sr.client.nextLease, (30 : Int)) ∈ (Register sr ctx id now req).2.client.leases ∧
      (Register sr ctx id now req).2.client.calls = sr.client.calls ++
        [Call.grant 30, Call.put (serviceKey req.Name inst.ID) data sr.client.nextLease] ∧
      GoMap.get (Register sr ctx id now req).2.leases inst.ID = some sr.client.nextLease ∧
      (GetService (Register sr ctx id now req).2 ctx' req.Name).1 = .ok l ∧
      inst.wire ∈ l ∧ inst.wire.ID = inst.ID ∧ inst.wire.Status = inst.Status ∧
      inst.wire.Port = inst.Port ∧
      (ValidUTF8 req.Name → ValidUTF8 req.Version → ValidUTF8 req.Host →
        now.offset % 60 = 0 → now.mono = none →
        inst.wire = { inst with Metadata := wireMap inst.Metadata }) ∧
      (sr.client.kvs = [] → l = [inst.wire]) ∧
      (∀ regs : List (GoString × UUID), Populated sr regs → (∀ p ∈ regs, p.2 ≠ id) →
        (∀ p ∈ regs, p.2.string ≠ inst.ID) ∧
        (∀ kv ∈ sr.client.kvs, ∀ x, FromJSON kv.Value = .ok x → x.ID ≠ inst.ID) ∧
        l.filter (fun x => decide (x.ID = inst.ID)) = [inst.wire]) := by
  obtain ⟨data, hdata, hdec⟩ := FromJSON_ToJSON_wire
    ⟨id.string, req.Name, req.Version, req.Host, req.Port, req.Metadata, utf8 "UP", now⟩
    hport hnow hmar
  have hreg := Register_ok sr ctx id now req data hgrant hput hdata
  have hres := GetService_read (Register sr ctx id now req).2 ctx' req.Name _
    (Get_ok _ ctx' (servicePrefix req.Name) hread)
  have hmem : ServiceInstance.wire ⟨id.string, req.Name, req.Version, req.Host, req.Port,
      req.Metadata, utf8 "UP", now⟩ ∈ decodeAll ((Register sr ctx id now req).2.client.kvs.filter
        (fun kv => (servicePrefix req.Name).isPrefixOf kv.Key)) := by
    apply mem_decodeAll _ ⟨serviceKey req.Name id.string, data, sr.client.nextLease⟩ _ _ hdec
    rw [hreg]
    exact List.mem_filter.2 ⟨mem_insertKV_self _ _,
      servicePrefix_isPrefixOf_serviceKey req.Name id.string⟩
  rw [if_neg (List.ne_nil_of_mem hmem)] at hres
  have hwid : (ServiceInstance.wire ⟨id.string, req.Name, req.Version, req.Host, req.Port,
      req.Metadata, utf8 "UP", now⟩).ID = id.string :=
    wireString_of_valid _ (UUID.string_valid id)
  have hwst : (ServiceInstance.wire ⟨id.string, req.Name, req.Version, req.Host, req.Port,
      req.Metadata, utf8 "UP", now⟩).Status = utf8 "UP" :=
    wireString_of_valid _ (validUTF8_utf8 "UP")
  refine ⟨_, data, _, congrArg Prod.fst hreg, rfl, UUID.string_ne_empty id,
    fun id2 h => UUID.string_injective id2 id h, rfl, rfl, rfl,
    rfl, rfl, rfl, rfl, hdata, ?_, ?_, ?_, ?_, hres, hmem, hwid, hwst, rfl,
    fun v1 v2 v3 ho hm => instanceWire_of_text _ (UUID.string_valid id) v1 v2 v3
      (validUTF8_utf8 "UP") ho hm, ?_, ?_⟩
  · rw [hreg]
    exact mem_insertKV_self _ _
  · rw [hreg]
    simp [defaultTTL]
  · rw [hreg]
    rfl
  · rw [hreg]
    exact GoMap.get_set_self _ _ _
  · intro hempty
    rw [hreg]
    simp only [hempty, Etcd.insertKV, List.filter_cons,
      servicePrefix_isPrefixOf_serviceKey req.Name id.string, if_true, List.filter_nil]
    rw [decodeAll_cons_ok _ _ _ hdec]
    rfl
  · intro regs hpop hfresh
    have hids : ∀ p ∈ regs, p.2.string ≠ id.string :=
      fun p hp h => hfresh p hp (UUID.string_injective _ _ h)
    have hold : ∀ kv ∈ sr.client.kvs, ∀ x, FromJSON kv.Value = .ok x → x.ID ≠ id.string := by
      intro kv hkv x hx h
      obtain ⟨p, hp, _, hpid⟩ := (Populated_records hpop).1 kv hkv
      exact hids p hp ((hpid x hx).symm.trans h)
    refine ⟨hids, hold, ?_⟩
    obtain ⟨pre, post, hsplit, hpre, hpost⟩ := insertKV_split sr.client.kvs
      ⟨serviceKey req.Name id.string, data, sr.client.nextLease⟩
    rw [hreg]
    simp only [hsplit, List.filter_append, List.filter_cons,
      servicePrefix_isPrefixOf_serviceKey req.Name id.string, if_true, decodeAll_append]
    rw [decodeAll_cons_ok _ _ _ hdec, List.filter_cons, if_pos (by simpa using hwid),
      filter_ID_decodeAll _ _ (fun kv hkv => hold kv (hpre kv (List.mem_filter.1 hkv).1)),
      filter_ID_decodeAll _ _ (fun kv hkv => hold kv (hpost kv (List.mem_filter.1 hkv).1))]
    rfl

/-- Instance of C6: the registration scenario on a new registry, at a time with
a monotonic clock reading, and a second registration under another UUID. -/
theorem Register_success_witness :
    (∃ inst l,
      (Register sampleRegistry Context.background sampleUUID1 sampleNow sampleRequest).1 =
        .ok inst ∧
      inst.ID = utf8 "01020304-0506-0708-090a-0b0c0d0e0fff" ∧ inst.Status = utf8 "UP" ∧
      inst.Host = utf8 "10.0.0.1" ∧ inst.Port = 8080 ∧
      (GetService
        (Register sampleRegistry Context.background sampleUUID1 sampleNow sampleRequest).2
        Context.background (utf8 "hello")).1 = .ok l ∧
      l.map (fun x => x.ID) = [utf8 "01020304-0506-0708-090a-0b0c0d0e0fff"] ∧
      l.filter (fun x => decide (x.ID = inst.ID)) = [inst.wire]) ∧
    sampleUUID2.string ≠ sampleUUID1.string := by
  obtain ⟨inst, data, l, h1, h2, _, h3, h4, _, _, h7, h8, _, _, _, _, _, _, _, h15, _, hw, _, _,
      _, h17, h18⟩ :=
    Register_success sampleRegistry Context.background Context.background sampleUUID1
      sampleNow sampleRequest rfl rfl rfl (by decide) (by decide) (by decide)
  refine ⟨⟨inst, l, h1, ?_, h4, ?_, ?_, h15, ?_, (h18 [] Populated.init (by decide)).2.2⟩, ?_⟩
  · rw [h2]
    decide
  · rw [h7]
    rfl
  · rw [h8]
    rfl
  · rw [h17 rfl, List.map_cons, List.map_nil, hw, h2]
    decide
  · intro h
    have := h3 sampleUUID2 (h.trans h2.symm)
    revert this
    decide

end Registry
